import Mathlib

/-!
# Verification of the Duckov Mod Tracker reconciliation engine

Shallow embedding of the timestamp normalization, deduplication, merge,
validation (`merge_old_data.py`) and timestamp alignment (`plot_utils.py`)
logic of the repository, together with proofs about the embedded code.

Python strings are modelled as `List Char` (Python compares strings by
code points, which the structural lexicographic order below reproduces);
pandas `DataFrame`s of `(mod_id, timestamp, subscribers)` rows are modelled
as lists of a `Row` structure, in row order.  `pandas.sort_values` on
several columns uses `numpy.lexsort`, a stable sort, so it is modelled by
`List.insertionSort` (stable) on the lexicographic row order.
-/

abbrev Chars := List Char

/-- Python's default whitespace set (ASCII part), used by `str.strip` and
by the `\s` class of the `re` patterns `_strptime` builds. -/
def isSpaceChar (c : Char) : Bool :=
  c = ' ' || c = '\t' || c = '\n' || c = '\r' || c.toNat = 11 || c.toNat = 12

/-- Python `str.strip()`: drop leading and trailing whitespace. -/
def pyStrip (s : Chars) : Chars :=
  ((s.dropWhile isSpaceChar).reverse.dropWhile isSpaceChar).reverse

/-- Python `str.split(sep)` for a single-character separator: splits at every
occurrence of `sep`, keeping empty fragments (`"".split(' ') == ['']`). -/
def pySplit (sep : Char) : Chars → List Chars
  | [] => [[]]
  | c :: rest =>
    match pySplit sep rest with
    | [] => [[]]
    | g :: gs => if c = sep then [] :: g :: gs else (c :: g) :: gs

/-- Python `str.zfill(2)` restricted to unsigned strings: left-pad with `'0'`
to length 2.  (Python's special handling of a leading sign is omitted: a
sign character can only occur in inputs that the subsequent `strptime`
validation rejects in both variants.) -/
def zfill2 (s : Chars) : Chars :=
  if s.length < 2 then List.replicate (2 - s.length) '0' ++ s else s

def digitVal (c : Char) : Nat := c.toNat - 48

def isDigitChar (c : Char) : Bool := 48 ≤ c.toNat && c.toNat ≤ 57

/-- The decimal digit character for `n % 10`. -/
def digitChar (n : Nat) : Char :=
  match n with
  | 0 => '0' | 1 => '1' | 2 => '2' | 3 => '3' | 4 => '4'
  | 5 => '5' | 6 => '6' | 7 => '7' | 8 => '8' | _ => '9'

/-- Zero-padded two-digit rendering of `n < 100`. -/
def pad2 (n : Nat) : Chars := [digitChar (n / 10), digitChar (n % 10)]

/-- Zero-padded four-digit rendering of `n < 10000`. -/
def pad4 (n : Nat) : Chars :=
  [digitChar (n / 1000), digitChar (n / 100 % 10), digitChar (n / 10 % 10), digitChar (n % 10)]

/-- Expect one specific character and consume it. -/
def expectChar (c : Char) : Chars → Option Chars
  | d :: rest => if d = c then some rest else none
  | [] => none

/-- One numeric field of CPython's `_strptime` regexes.  The field patterns
(`%m`, `%d`, `%H`, `%M`, `%S`) match one or two digits with a bounded value;
matching is greedy, and because every field is followed by a non-digit
(separator or end), backtracking from the two-digit to the one-digit
alternative can never succeed, so the greedy choice is deterministic:
a two-digit window must satisfy the two-digit bounds `[lo2, hi2]`,
otherwise a single digit must satisfy the one-digit bounds `[lo1, hi1]`. -/
def parseField (lo2 hi2 lo1 hi1 : Nat) : Chars → Option (Nat × Chars)
  | c1 :: c2 :: rest =>
    if isDigitChar c1 then
      if isDigitChar c2 then
        let v := 10 * digitVal c1 + digitVal c2
        if lo2 ≤ v && v ≤ hi2 then some (v, rest) else none
      else
        let v := digitVal c1
        if lo1 ≤ v && v ≤ hi1 then some (v, c2 :: rest) else none
    else none
  | [c1] =>
    if isDigitChar c1 then
      let v := digitVal c1
      if lo1 ≤ v && v ≤ hi1 then some (v, []) else none
    else none
  | [] => none

/-- `%Y` of CPython `_strptime`: exactly four digits. -/
def parseYear4 : Chars → Option (Nat × Chars)
  | a :: b :: c :: d :: rest =>
    if isDigitChar a && isDigitChar b && isDigitChar c && isDigitChar d then
      some (1000 * digitVal a + 100 * digitVal b + 10 * digitVal c + digitVal d, rest)
    else none
  | _ => none

/-- A literal space in a `strptime` format becomes `\s+`: one or more
whitespace characters. -/
def parseWs1 : Chars → Option Chars
  | c :: rest => if isSpaceChar c then some (rest.dropWhile isSpaceChar) else none
  | [] => none

def isLeapYear (y : Nat) : Bool := (y % 4 = 0 && y % 100 ≠ 0) || y % 400 = 0

def daysInMonth (y m : Nat) : Nat :=
  if m = 2 then (if isLeapYear y then 29 else 28)
  else if m = 4 || m = 6 || m = 9 || m = 11 then 30
  else 31

/-- `datetime.strptime(s, "%Y-%m-%d %H:%M:%S")`: the regex match (field
patterns as in `parseField`, `%m ∈ 1..12`, `%d ∈ 1..31`, `%H ∈ 0..23`,
`%M ∈ 0..59`, `%S ∈ 0..61`, no unconverted data), followed by the checks the
`datetime` constructor performs (`year ≥ 1`, day valid for the month,
`second ≤ 59`).  Returns the parsed `(y, m, d, h, mi, s)`. -/
def strptimeYmdHMS (s : Chars) : Option (Nat × Nat × Nat × Nat × Nat × Nat) := do
  let (y, r1) ← parseYear4 s
  let r2 ← expectChar '-' r1
  let (m, r3) ← parseField 1 12 1 9 r2
  let r4 ← expectChar '-' r3
  let (d, r5) ← parseField 1 31 1 9 r4
  let r6 ← parseWs1 r5
  let (h, r7) ← parseField 0 23 0 9 r6
  let r8 ← expectChar ':' r7
  let (mi, r9) ← parseField 0 59 0 9 r8
  let r10 ← expectChar ':' r9
  let (sec, r11) ← parseField 0 61 0 9 r10
  if r11.isEmpty then
    if 1 ≤ y && d ≤ daysInMonth y m && sec ≤ 59 then some (y, m, d, h, mi, sec) else none
  else none

def strptimeValid (s : Chars) : Bool := (strptimeYmdHMS s).isSome

/-- `normalize_timestamp` of `merge_old_data.py`.  A `none` input models a
`NaN` cell (`pd.isna`); `none` output models the Python `None` return
(`ParseFailure`).  Both the slash branch and the dash branch are translated
statement by statement; the `try`/`except` blocks are reflected by the
`none` results of failed index accesses and failed `strptime` validation. -/
def normalize_timestamp : Option Chars → Option Chars
  | none => none
  | some raw =>
    if raw = [] then none
    else
      let s := pyStrip raw
      if '/' ∈ s then
        let parts := pySplit ' ' s
        let date_part := parts.headD []
        let time_part := if parts.length > 1 then parts.getD 1 [] else "00:00".toList
        match pySplit '/' date_part with
        | year :: m0 :: d0 :: _ =>
          let month := zfill2 m0
          let day := zfill2 d0
          let tps := pySplit ':' time_part
          let hour := zfill2 (tps.headD [])
          let minute := if tps.length > 1 then zfill2 (tps.getD 1 []) else "00".toList
          let second := if tps.length > 2 then zfill2 (tps.getD 2 []) else "00".toList
          let normalized :=
            year ++ '-' :: (month ++ '-' :: (day ++ ' ' :: (hour ++ ':' :: (minute ++ ':' :: second))))
          if strptimeValid normalized then some normalized else none
        | _ => none
      else if '-' ∈ s then
        let parts := pySplit ' ' s
        let s2 :=
          if parts.length = 2 then
            if (pySplit ':' (parts.getD 1 [])).length = 2 then
              parts.headD [] ++ ' ' :: (parts.getD 1 [] ++ ':' :: "00".toList)
            else s
          else s
        if strptimeValid s2 then some s2 else none
      else none

/-- Canonical `YYYY-MM-DD HH:MM:SS` rendering. -/
def canonChars (y m d h mi s : Nat) : Chars :=
  pad4 y ++ '-' :: (pad2 m ++ '-' :: (pad2 d ++ ' ' :: (pad2 h ++ ':' :: (pad2 mi ++ ':' :: pad2 s))))

/-- Models `pandas.to_datetime` restricted to dash-delimited Gregorian
timestamp strings `Y-M-D[ H:M[:S]]` with one- or two-digit fields — the only
shapes this system's tables can contain.  A parsed value is represented by
the canonical zero-padded rendering that a `datetime64` column serializes
back to.  Unparseable input models the raised exception (`none`). -/
def pd_to_datetime (s : Chars) : Option Chars := do
  let (y, r1) ← parseYear4 s
  let r2 ← expectChar '-' r1
  let (m, r3) ← parseField 1 12 1 9 r2
  let r4 ← expectChar '-' r3
  let (d, r5) ← parseField 1 31 1 9 r4
  if 1 ≤ y && d ≤ daysInMonth y m then
    match r5 with
    | [] => some (canonChars y m d 0 0 0)
    | _ :: _ => do
      let r6 ← parseWs1 r5
      let (h, r7) ← parseField 0 23 0 9 r6
      let r8 ← expectChar ':' r7
      let (mi, r9) ← parseField 0 59 0 9 r8
      match r9 with
      | [] => some (canonChars y m d h mi 0)
      | _ :: _ => do
        let r10 ← expectChar ':' r9
        let (sec, r11) ← parseField 0 59 0 9 r10
        if r11.isEmpty then some (canonChars y m d h mi sec) else none
  else none

/-! ## The Table of observations (`merge_old_data.py`) -/

/-- One observation row of the persisted Table (`mod_id,timestamp,subscribers`). -/
structure Row where
  mod_id : Nat
  timestamp : Chars
  subscribers : Nat
deriving DecidableEq, Repr

/-- The deduplication key of `drop_duplicates(subset=['mod_id', 'timestamp'])`. -/
def rowKey (r : Row) : Nat × Chars := (r.mod_id, r.timestamp)

/-- Lexicographic strict order on code points: Python `str.__lt__`. -/
def charsLt : Chars → Chars → Bool
  | [], [] => false
  | [], _ :: _ => true
  | _ :: _, [] => false
  | a :: as, b :: bs =>
    if a.toNat < b.toNat then true
    else if b.toNat < a.toNat then false
    else charsLt as bs

/-- The sort key of `sort_values(['mod_id', 'timestamp', 'subscribers'])`:
lexicographic comparison of the three columns. -/
def rowLe (a b : Row) : Prop :=
  a.mod_id < b.mod_id ∨
    (a.mod_id = b.mod_id ∧
      (charsLt a.timestamp b.timestamp = true ∨
        (a.timestamp = b.timestamp ∧ a.subscribers ≤ b.subscribers)))

instance : DecidableRel rowLe := fun a b =>
  inferInstanceAs (Decidable (a.mod_id < b.mod_id ∨
    (a.mod_id = b.mod_id ∧
      (charsLt a.timestamp b.timestamp = true ∨
        (a.timestamp = b.timestamp ∧ a.subscribers ≤ b.subscribers)))))

/-- The sort key of the final `sort_values('timestamp')`. -/
def tsLe (a b : Row) : Prop := charsLt b.timestamp a.timestamp = false

instance : DecidableRel tsLe := fun a b =>
  inferInstanceAs (Decidable (charsLt b.timestamp a.timestamp = false))

/-- `drop_duplicates(keep='last')` helper: keep the first occurrence of every
key not yet seen (applied below to the reversed list). -/
def dropDupAux {α κ : Type} (keyf : α → κ) [DecidableEq κ] : List κ → List α → List α
  | _, [] => []
  | seen, x :: xs =>
    if keyf x ∈ seen then dropDupAux keyf seen xs
    else x :: dropDupAux keyf (keyf x :: seen) xs

/-- `DataFrame.drop_duplicates(subset=key, keep='last')`: keep, per key, the
last occurrence, preserving the order of the kept rows. -/
def drop_duplicates_keep_last {α κ : Type} (keyf : α → κ) [DecidableEq κ] (l : List α) : List α :=
  (dropDupAux keyf [] l.reverse).reverse

/-- `clean_data` of `merge_old_data.py`: stable sort by
`(mod_id, timestamp, subscribers)`, drop duplicate `(mod_id, timestamp)`
keys keeping the last entry of the sorted order, then re-sort by timestamp. -/
def clean_data (df : List Row) : List Row :=
  if df.isEmpty then df
  else
    List.insertionSort tsLe
      (drop_duplicates_keep_last rowKey (List.insertionSort rowLe df))

/-- `merge_with_existing` of `merge_old_data.py`: concatenate the persisted
table (an absent file is an empty table) with the batch, then apply the same
sort / drop-duplicates / re-sort sequence. -/
def merge_with_existing (existing : Option (List Row)) (old_data : List Row) : List Row :=
  let existing_df := existing.getD []
  let combined_df := existing_df ++ old_data
  List.insertionSort tsLe
    (drop_duplicates_keep_last rowKey (List.insertionSort rowLe combined_df))

/-- `df['timestamp'] = pd.to_datetime(df['timestamp'])` applied to one row. -/
def rowParseTs (r : Row) : Option Row :=
  (pd_to_datetime r.timestamp).map fun c => { r with timestamp := c }

/-- `validate_data` of `merge_old_data.py`, with the state of the `DataFrame`
passed explicitly: empty table fails; the timestamp column is replaced by its
parsed form (in place — visible to the caller) unless `pd.to_datetime`
raises, in which case the column assignment never happens; then duplicate
`(mod_id, timestamp)` keys fail.  Returns (pass/fail, table after the call). -/
def validate_data (df : List Row) : Bool × List Row :=
  if df.isEmpty then (false, df)
  else
    match df.mapM rowParseTs with
    | none => (false, df)
    | some df' => if (df'.map rowKey).Nodup then (true, df') else (false, df')

/-- The decision structure of `main` of `merge_old_data.py` after the old
batch has been loaded: nothing to merge leaves the persisted state alone;
otherwise the batch is cleaned and merged, and the merge result is persisted
only when `validate_data` passes (the table written is the one `validate_data`
left behind, i.e. the converted column).  The `Bool` reports success. -/
def main_run (persisted : Option (List Row)) (old_rows : List Row) : Option (List Row) × Bool :=
  if old_rows.isEmpty then (persisted, false)
  else
    let cleaned := clean_data old_rows
    let merged := merge_with_existing persisted cleaned
    let v := validate_data merged
    if v.1 then (some v.2, true) else (persisted, false)

/-- Maximum subscriber count of a list of rows (`0` for the empty list). -/
def maxCount (l : List Row) : Nat := (l.map Row.subscribers).foldl Nat.max 0

/-- The observation the §4.2 policy keeps: the last element attaining the
maximum count (an earlier element survives only if strictly larger). -/
def lastMaxRow : List Row → Option Row
  | [] => none
  | x :: xs =>
    match lastMaxRow xs with
    | none => some x
    | some m => if m.subscribers < x.subscribers then some x else some m

/-! ## The plot-time aligner (`plot_utils.py`) -/

/-- One observation as the plotting pipeline sees it: the timestamp is a
parsed datetime, modelled as integer seconds. -/
structure PRow where
  mod_id : Nat
  timestamp : Int
  subscribers : Nat
deriving DecidableEq, Repr

/-- The key of `drop_duplicates(subset=['timestamp', 'mod_id'])`. -/
def pKey (r : PRow) : Int × Nat := (r.timestamp, r.mod_id)

/-- The sort key of `sort_values('timestamp')` in `plot_trends_from_csv`. -/
def pTsLe (a b : PRow) : Prop := a.timestamp ≤ b.timestamp

instance : DecidableRel pTsLe := fun a b =>
  inferInstanceAs (Decidable (a.timestamp ≤ b.timestamp))

/-- `np.searchsorted(a, v, side='left')` on a sorted list: the leftmost
insertion index, i.e. the first index whose element is `≥ v`. -/
def searchsorted_left (a : List Int) (v : Int) : Nat :=
  match a with
  | [] => 0
  | x :: xs => if v ≤ x then 0 else searchsorted_left xs v + 1

/-- `align_to_main` of `plot_utils.py` (lines 72–86): snap `t` onto the
sorted reference timestamp list `R`. -/
def align_to_main (R : List Int) (t : Int) : Int :=
  let idx := searchsorted_left R t
  if idx = 0 then R.headD 0
  else if idx = R.length then R.getLastD 0
  else
    let left := R.getD (idx - 1) 0
    let right := R.getD idx 0
    if (t - left).natAbs < (t - right).natAbs then left else right

/-- Lines 88–90: replace every observation's timestamp by its snapped value
(only done when the reference list is non-empty). -/
def apply_alignment (R : List Int) (l : List PRow) : List PRow :=
  if R.isEmpty then l
  else l.map fun r => { r with timestamp := align_to_main R r.timestamp }

/-- Lines 98–102: `sort_values('timestamp')` followed by
`drop_duplicates(subset=['timestamp', 'mod_id'], keep='last')`.  The sort is
modelled as stable (for the tiny groups of equal keys arising here, numpy's
introsort falls back to a stable insertion sort). -/
def plot_dedup (l : List PRow) : List PRow :=
  drop_duplicates_keep_last pKey (List.insertionSort pTsLe l)

/-- Line 113: `df.groupby('timestamp')['subscribers'].sum()` at one timestamp. -/
def total_subs (l : List PRow) (t : Int) : Nat :=
  ((l.filter fun r => r.timestamp = t).map PRow.subscribers).sum

/-! ## Shapes of accepted normalizer inputs (from the specified contract) -/

/-- One optionally-non-zero-padded rendering of a field value `v`: the bare
single digit when `v < 10` and `padded` is false, else the zero-padded
two-digit form. -/
def renderNum (padded : Bool) (v : Nat) : Chars :=
  if v < 10 ∧ padded = false then [digitChar v] else pad2 v

/-- A slash-delimited input `Y/M/D[ H:M[:S]]`: four-digit year, optionally
non-zero-padded month/day/hour/minute/second, optional seconds, optional
time-of-day. -/
def slashShape (y : Nat) (pm : Bool) (m : Nat) (pdd : Bool) (d : Nat)
    (timePart : Option (Bool × Nat × Bool × Nat × Option (Bool × Nat))) : Chars :=
  pad4 y ++ '/' :: (renderNum pm m ++ '/' :: (renderNum pdd d ++
    match timePart with
    | none => []
    | some (ph, h, pmi, mi, secPart) =>
      ' ' :: (renderNum ph h ++ ':' :: (renderNum pmi mi ++
        match secPart with
        | none => []
        | some (ps, s) => ':' :: renderNum ps s))))

/-- A dash-delimited input `Y-M-D H:M[:S]`: zero-padded fields, optional
seconds. -/
def dashShape (y m d h mi : Nat) (secPart : Option Nat) : Chars :=
  pad4 y ++ '-' :: (pad2 m ++ '-' :: (pad2 d ++ ' ' :: (pad2 h ++ ':' :: (pad2 mi ++
    match secPart with
    | none => []
    | some s => ':' :: pad2 s))))

/-! ## Proofs: the snap operation -/

theorem searchsorted_le_length (a : List Int) (v : Int) : searchsorted_left a v ≤ a.length := by
  induction a with
  | nil => simp [searchsorted_left]
  | cons x xs ih =>
    simp only [searchsorted_left, List.length_cons]
    split
    · exact Nat.zero_le _
    · omega

theorem getD_lt_of_lt_searchsorted {a : List Int} {v : Int} {i : Nat}
    (h : i < searchsorted_left a v) : a.getD i 0 < v := by
  induction a generalizing i with
  | nil => simp [searchsorted_left] at h
  | cons x xs ih =>
    simp only [searchsorted_left] at h
    split at h
    · omega
    · match i with
      | 0 => simpa using by omega
      | j + 1 =>
        simp only [List.getD_cons_succ]
        exact ih (by omega)

theorem le_getD_searchsorted {a : List Int} {v : Int}
    (h : searchsorted_left a v < a.length) : v ≤ a.getD (searchsorted_left a v) 0 := by
  induction a with
  | nil => simp at h
  | cons x xs ih =>
    by_cases hvx : v ≤ x
    · simp [searchsorted_left, hvx]
    · simp only [searchsorted_left, if_neg hvx, List.length_cons, List.getD_cons_succ] at h ⊢
      exact ih (by omega)

theorem getD_strict_mono {R : List Int} (hsort : R.Pairwise (· < ·)) {i j : Nat}
    (hij : i < j) (hj : j < R.length) : R.getD i 0 < R.getD j 0 := by
  rw [List.pairwise_iff_getElem] at hsort
  rw [List.getD_eq_getElem R 0 (by omega), List.getD_eq_getElem R 0 hj]
  exact hsort i j (by omega) hj hij

theorem getD_mem {R : List Int} {i : Nat} (h : i < R.length) : R.getD i 0 ∈ R := by
  rw [List.getD_eq_getElem R 0 h]
  exact R.getElem_mem h

theorem headD_eq_getD {R : List Int} (h : R ≠ []) : R.headD 0 = R.getD 0 0 := by
  cases R with
  | nil => exact absurd rfl h
  | cons x xs => rfl

theorem getLastD_eq_getD : ∀ (R : List Int) (d : Int), R ≠ [] →
    R.getLastD d = R.getD (R.length - 1) 0
  | [x], d, _ => by simp
  | x :: y :: ys, d, _ => by
    have ih := getLastD_eq_getD (y :: ys) x (by simp)
    rw [List.getLastD_cons, ih]
    have hlen : (x :: y :: ys).length - 1 = ((y :: ys).length - 1) + 1 := by
      simp [List.length_cons]
    rw [hlen, List.getD_cons_succ]

/-- Full characterization of the snap operation: on a non-empty strictly
sorted reference list, `align_to_main` returns a member of the list that is
nearest to `t` by absolute difference, and on a distance tie the latest
(largest) such member. -/
theorem align_to_main_spec (R : List Int) (t : Int) (hne : R ≠ [])
    (hsort : R.Pairwise (· < ·)) :
    align_to_main R t ∈ R ∧
    (∀ r ∈ R, (t - align_to_main R t).natAbs ≤ (t - r).natAbs) ∧
    (∀ r ∈ R, (t - r).natAbs = (t - align_to_main R t).natAbs → r ≤ align_to_main R t) := by
  have hlen : 0 < R.length := List.length_pos.mpr hne
  by_cases h0 : searchsorted_left R t = 0
  · have halign : align_to_main R t = R.getD 0 0 := by
      rw [align_to_main, if_pos h0, headD_eq_getD hne]
    have ht : t ≤ R.getD 0 0 := by
      have := le_getD_searchsorted (a := R) (v := t) (by omega)
      rwa [h0] at this
    refine ⟨halign ▸ getD_mem hlen, ?_, ?_⟩
    · intro r hr
      obtain ⟨i, hi, rfl⟩ := List.mem_iff_getElem.mp hr
      rw [← List.getD_eq_getElem R 0 hi, halign]
      rcases Nat.eq_zero_or_pos i with h | h
      · subst h; omega
      · have := getD_strict_mono hsort h hi
        omega
    · intro r hr heq
      obtain ⟨i, hi, rfl⟩ := List.mem_iff_getElem.mp hr
      rw [← List.getD_eq_getElem R 0 hi] at heq ⊢
      rw [halign] at heq ⊢
      rcases Nat.eq_zero_or_pos i with h | h
      · subst h; omega
      · have := getD_strict_mono hsort h hi
        omega
  · by_cases hL : searchsorted_left R t = R.length
    · have halign : align_to_main R t = R.getD (R.length - 1) 0 := by
        rw [align_to_main, if_neg h0, if_pos hL, getLastD_eq_getD R 0 hne]
      have hlast : R.getD (R.length - 1) 0 < t := by
        apply getD_lt_of_lt_searchsorted (v := t); omega
      refine ⟨halign ▸ getD_mem (by omega), ?_, ?_⟩
      · intro r hr
        obtain ⟨i, hi, rfl⟩ := List.mem_iff_getElem.mp hr
        rw [← List.getD_eq_getElem R 0 hi, halign]
        rcases Nat.lt_or_ge i (R.length - 1) with h | h
        · have := getD_strict_mono hsort h (by omega)
          have hit : R.getD i 0 < t := getD_lt_of_lt_searchsorted (by omega)
          omega
        · have : i = R.length - 1 := by omega
          subst this; omega
      · intro r hr heq
        obtain ⟨i, hi, rfl⟩ := List.mem_iff_getElem.mp hr
        rw [← List.getD_eq_getElem R 0 hi] at heq ⊢
        rw [halign] at heq ⊢
        rcases Nat.lt_or_ge i (R.length - 1) with h | h
        · have := getD_strict_mono hsort h (by omega)
          have hit : R.getD i 0 < t := getD_lt_of_lt_searchsorted (by omega)
          omega
        · have : i = R.length - 1 := by omega
          subst this; omega
    · have hidx1 : 0 < searchsorted_left R t := Nat.pos_of_ne_zero h0
      have hidx2 : searchsorted_left R t < R.length :=
        Nat.lt_of_le_of_ne (searchsorted_le_length R t) hL
      set idx := searchsorted_left R t with hidxdef
      set left := R.getD (idx - 1) 0 with hleft
      set right := R.getD idx 0 with hright
      have halign : align_to_main R t =
          if (t - left).natAbs < (t - right).natAbs then left else right := by
        rw [align_to_main, if_neg h0, if_neg hL]
      have hlt : left < t := getD_lt_of_lt_searchsorted (by omega)
      have hrt : t ≤ right := le_getD_searchsorted hidx2
      have hsplit : ∀ i, i < R.length → R.getD i 0 ≤ left ∨ right ≤ R.getD i 0 := by
        intro i hi
        rcases Nat.lt_or_ge i idx with h | h
        · left
          rcases Nat.lt_or_ge i (idx - 1) with h' | h'
          · exact le_of_lt (getD_strict_mono hsort h' (by omega))
          · have : i = idx - 1 := by omega
            subst this; exact le_refl _
        · right
          rcases Nat.lt_or_ge idx i with h' | h'
          · exact le_of_lt (getD_strict_mono hsort h' hi)
          · have : i = idx := by omega
            subst this; exact le_refl _
      constructor
      · rw [halign]; split
        · exact getD_mem (by omega)
        · exact getD_mem hidx2
      constructor
      · intro r hr
        obtain ⟨i, hi, rfl⟩ := List.mem_iff_getElem.mp hr
        rw [← List.getD_eq_getElem R 0 hi]
        have := hsplit i hi
        rw [halign]; split <;> omega
      · intro r hr heq
        obtain ⟨i, hi, rfl⟩ := List.mem_iff_getElem.mp hr
        rw [← List.getD_eq_getElem R 0 hi] at heq ⊢
        have := hsplit i hi
        rw [halign] at heq ⊢
        split at heq <;> split <;> omega

/-! ## Proofs: order lemmas for the embedded sort keys -/

theorem charsLt_irrefl : ∀ s : Chars, charsLt s s = false
  | [] => rfl
  | a :: as => by
    simp only [charsLt, lt_irrefl, if_false]
    exact charsLt_irrefl as

theorem charsLt_asymm : ∀ {s t : Chars}, charsLt s t = true → charsLt t s = false
  | [], [], h => by simpa [charsLt] using h
  | [], _ :: _, _ => by simp [charsLt]
  | _ :: _, [], h => by simpa [charsLt] using h
  | a :: as, b :: bs, h => by
    simp only [charsLt] at h ⊢
    by_cases hab : a.toNat < b.toNat
    · rw [if_neg (by omega), if_pos hab]
    · by_cases hba : b.toNat < a.toNat
      · rw [if_neg hab, if_pos hba] at h
        exact absurd h (by simp)
      · rw [if_neg hab, if_neg hba] at h
        rw [if_neg hba, if_neg hab]
        exact charsLt_asymm h

theorem charsLt_trans : ∀ {s t u : Chars},
    charsLt s t = true → charsLt t u = true → charsLt s u = true
  | [], _, _ :: _, _, _ => by simp [charsLt]
  | [], t, [], _, h2 => by
    cases t <;> simpa [charsLt] using h2
  | _ :: _, t, [], h1, h2 => by
    cases t <;> simp [charsLt] at h1 h2
  | a :: as, t, c :: cs, h1, h2 => by
    match t with
    | [] => simp [charsLt] at h1
    | b :: bs =>
      simp only [charsLt] at h1 h2 ⊢
      by_cases hab : a.toNat < b.toNat <;> by_cases hbc : b.toNat < c.toNat
      · rw [if_pos (by omega)]
      · rw [if_neg hbc] at h2
        split at h2
        · exact absurd h2 (by simp)
        · rw [if_pos (by omega)]
      · rw [if_neg hab] at h1
        split at h1
        · exact absurd h1 (by simp)
        · rw [if_pos (by omega)]
      · rw [if_neg hab] at h1
        rw [if_neg hbc] at h2
        by_cases hba : b.toNat < a.toNat
        · rw [if_pos hba] at h1
          exact absurd h1 (by simp)
        · by_cases hcb : c.toNat < b.toNat
          · rw [if_pos hcb] at h2
            exact absurd h2 (by simp)
          · rw [if_neg hba] at h1
            rw [if_neg hcb] at h2
            rw [if_neg (by omega), if_neg (by omega)]
            exact charsLt_trans h1 h2

theorem charsLt_connex : ∀ {s t : Chars},
    charsLt s t = false → charsLt t s = false → s = t
  | [], [], _, _ => rfl
  | [], _ :: _, h1, _ => by simp [charsLt] at h1
  | _ :: _, [], _, h2 => by simp [charsLt] at h2
  | a :: as, b :: bs, h1, h2 => by
    simp only [charsLt] at h1 h2
    by_cases hab : a.toNat < b.toNat
    · rw [if_pos hab] at h1
      exact absurd h1 (by simp)
    · by_cases hba : b.toNat < a.toNat
      · rw [if_pos hba] at h2
        exact absurd h2 (by simp)
      · rw [if_neg hab, if_neg hba] at h1
        rw [if_neg hba, if_neg hab] at h2
        have htn : a.toNat = b.toNat := by omega
        unfold Char.toNat at htn
        have hc : a = b := Char.eq_of_val_eq (by exact UInt32.toNat.inj htn)
        exact hc ▸ congrArg (List.cons a) (charsLt_connex h1 h2)

theorem rowLe_total : ∀ a b : Row, rowLe a b ∨ rowLe b a := by
  intro a b
  unfold rowLe
  rcases Nat.lt_trichotomy a.mod_id b.mod_id with h | h | h
  · exact Or.inl (Or.inl h)
  · by_cases hab : charsLt a.timestamp b.timestamp = true
    · exact Or.inl (Or.inr ⟨h, Or.inl hab⟩)
    · by_cases hba : charsLt b.timestamp a.timestamp = true
      · exact Or.inr (Or.inr ⟨h.symm, Or.inl hba⟩)
      · have hts : a.timestamp = b.timestamp :=
          charsLt_connex (by simpa using hab) (by simpa using hba)
        rcases Nat.le_total a.subscribers b.subscribers with hs | hs
        · exact Or.inl (Or.inr ⟨h, Or.inr ⟨hts, hs⟩⟩)
        · exact Or.inr (Or.inr ⟨h.symm, Or.inr ⟨hts.symm, hs⟩⟩)
  · exact Or.inr (Or.inl h)

theorem rowLe_trans : ∀ a b c : Row, rowLe a b → rowLe b c → rowLe a c := by
  intro a b c h1 h2
  unfold rowLe at h1 h2 ⊢
  rcases h1 with h1 | ⟨e1, h1⟩
  · rcases h2 with h2 | ⟨e2, _⟩
    · exact Or.inl (by omega)
    · exact Or.inl (by omega)
  · rcases h2 with h2 | ⟨e2, h2⟩
    · exact Or.inl (by omega)
    · refine Or.inr ⟨by omega, ?_⟩
      rcases h1 with h1 | ⟨t1, h1⟩
      · rcases h2 with h2 | ⟨t2, _⟩
        · exact Or.inl (charsLt_trans h1 h2)
        · exact Or.inl (t2 ▸ h1)
      · rcases h2 with h2 | ⟨t2, h2⟩
        · exact Or.inl (t1 ▸ h2)
        · exact Or.inr ⟨t1.trans t2, by omega⟩

theorem rowLe_antisymm : ∀ a b : Row, rowLe a b → rowLe b a → a = b := by
  intro a b h1 h2
  unfold rowLe at h1 h2
  have hm : a.mod_id = b.mod_id := by
    rcases h1 with h | ⟨e, _⟩ <;> rcases h2 with h' | ⟨e', _⟩ <;> omega
  have h1' : charsLt a.timestamp b.timestamp = true ∨
      (a.timestamp = b.timestamp ∧ a.subscribers ≤ b.subscribers) := by
    rcases h1 with h | ⟨_, h⟩
    · exact absurd h (by omega)
    · exact h
  have h2' : charsLt b.timestamp a.timestamp = true ∨
      (b.timestamp = a.timestamp ∧ b.subscribers ≤ a.subscribers) := by
    rcases h2 with h | ⟨_, h⟩
    · exact absurd h (by omega)
    · exact h
  have hts : a.timestamp = b.timestamp := by
    rcases h1' with h | ⟨e, _⟩
    · rcases h2' with h' | ⟨e', _⟩
      · rw [charsLt_asymm h] at h'
        exact absurd h' (by simp)
      · exact e'.symm
    · exact e
  have hsub : a.subscribers = b.subscribers := by
    rcases h1' with h | ⟨_, le1⟩
    · rw [hts, charsLt_irrefl] at h
      exact absurd h (by simp)
    · rcases h2' with h' | ⟨_, le2⟩
      · rw [hts, charsLt_irrefl] at h'
        exact absurd h' (by simp)
      · omega
  cases a; cases b
  simp_all

theorem tsLe_total : ∀ a b : Row, tsLe a b ∨ tsLe b a := by
  intro a b
  unfold tsLe
  by_cases h : charsLt b.timestamp a.timestamp = true
  · exact Or.inr (charsLt_asymm h)
  · exact Or.inl (by simpa using h)

theorem tsLe_trans : ∀ a b c : Row, tsLe a b → tsLe b c → tsLe a c := by
  intro a b c h1 h2
  unfold tsLe at h1 h2 ⊢
  by_contra hcon
  have hca : charsLt c.timestamp a.timestamp = true := by simpa using hcon
  by_cases hab : charsLt a.timestamp b.timestamp = true
  · have := charsLt_trans hca hab
    rw [this] at h2
    exact absurd h2 (by simp)
  · have hts : a.timestamp = b.timestamp :=
      charsLt_connex (by simpa using hab) h1
    rw [← hts] at h2
    rw [hca] at h2
    exact absurd h2 (by simp)

theorem pTsLe_total : ∀ a b : PRow, pTsLe a b ∨ pTsLe b a := by
  intro a b
  exact Int.le_total a.timestamp b.timestamp

theorem pTsLe_trans : ∀ a b c : PRow, pTsLe a b → pTsLe b c → pTsLe a c := by
  intro a b c h1 h2
  exact le_trans h1 h2

/-! ## Proofs: generic lemmas about the stable sort and `drop_duplicates` -/

theorem filter_orderedInsert {α : Type} (r : α → α → Prop) [DecidableRel r] [IsTrans α r]
    (p : α → Bool) (x : α) : ∀ l : List α, l.Sorted r →
    (List.orderedInsert r x l).filter p =
      if p x then List.orderedInsert r x (l.filter p) else l.filter p
  | [], _ => by
    by_cases hx : p x <;> simp [List.orderedInsert, hx]
  | b :: t, hs => by
    have hbt : ∀ c ∈ t, r b c := List.rel_of_sorted_cons hs
    have hts : t.Sorted r := hs.of_cons
    by_cases hxb : r x b
    · rw [List.orderedInsert_of_le r t hxb]
      by_cases hpx : p x
      · rw [if_pos hpx]
        by_cases hpb : p b
        · rw [List.filter_cons_of_pos (by simpa using hpx),
            List.filter_cons_of_pos (by simpa using hpb),
            List.orderedInsert_of_le r _ hxb]
        · rw [List.filter_cons_of_pos (by simpa using hpx),
            List.filter_cons_of_neg (by simpa using hpb)]
          cases hft : t.filter p with
          | nil => simp [List.orderedInsert]
          | cons c cs =>
            have hc : c ∈ t := List.mem_of_mem_filter (hft ▸ List.mem_cons_self c cs)
            have hxc : r x c := IsTrans.trans x b c hxb (hbt c hc)
            rw [List.orderedInsert_of_le r cs hxc]
      · rw [if_neg hpx, List.filter_cons_of_neg (by simpa using hpx)]
    · simp only [List.orderedInsert, if_neg hxb]
      by_cases hpb : p b
      · rw [List.filter_cons_of_pos (by simpa using hpb),
          List.filter_cons_of_pos (by simpa using hpb),
          filter_orderedInsert r p x t hts]
        by_cases hpx : p x
        · rw [if_pos hpx, if_pos hpx]
          simp only [List.orderedInsert, if_neg hxb]
        · rw [if_neg hpx, if_neg hpx]
      · rw [List.filter_cons_of_neg (by simpa using hpb),
          List.filter_cons_of_neg (by simpa using hpb),
          filter_orderedInsert r p x t hts]

theorem filter_insertionSort {α : Type} (r : α → α → Prop) [DecidableRel r]
    [IsTotal α r] [IsTrans α r] (p : α → Bool) :
    ∀ l : List α, (List.insertionSort r l).filter p = List.insertionSort r (l.filter p)
  | [] => rfl
  | a :: l => by
    simp only [List.insertionSort]
    rw [filter_orderedInsert r p a _ (List.sorted_insertionSort r l)]
    by_cases hp : p a
    · rw [if_pos hp, filter_insertionSort r p l, List.filter_cons_of_pos (by simpa using hp),
        List.insertionSort]
    · rw [if_neg hp, filter_insertionSort r p l, List.filter_cons_of_neg (by simpa using hp)]

theorem insertionSort_of_rel_all {α : Type} (r : α → α → Prop) [DecidableRel r] :
    ∀ l : List α, (∀ a ∈ l, ∀ b ∈ l, r a b) → List.insertionSort r l = l
  | [], _ => rfl
  | a :: l, h => by
    simp only [List.insertionSort]
    rw [insertionSort_of_rel_all r l (fun x hx y hy => h x (by simp [hx]) y (by simp [hy]))]
    cases l with
    | nil => rfl
    | cons b t =>
      exact List.orderedInsert_of_le r t (h a (by simp) b (by simp))

theorem dropDupAux_filter {α κ : Type} (keyf : α → κ) [DecidableEq κ] (k : κ) :
    ∀ (seen : List κ) (l : List α),
      (dropDupAux keyf seen l).filter (fun a => decide (keyf a = k)) =
        if k ∈ seen then [] else ((l.filter (fun a => decide (keyf a = k))).head?).toList
  | seen, [] => by simp [dropDupAux]
  | seen, x :: xs => by
    by_cases hk : keyf x = k
    · by_cases hseen : keyf x ∈ seen
      · rw [dropDupAux, if_pos hseen, dropDupAux_filter keyf k seen xs,
          if_pos (hk ▸ hseen), if_pos (hk ▸ hseen)]
      · rw [dropDupAux, if_neg hseen,
          List.filter_cons_of_pos (by simpa using hk),
          List.filter_cons_of_pos (by simpa using hk),
          dropDupAux_filter keyf k (keyf x :: seen) xs,
          if_pos (by simp [hk]), if_neg (hk ▸ hseen)]
        simp
    · by_cases hseen : keyf x ∈ seen
      · rw [dropDupAux, if_pos hseen, dropDupAux_filter keyf k seen xs,
          List.filter_cons_of_neg (by simpa using hk)]
      · rw [dropDupAux, if_neg hseen,
          List.filter_cons_of_neg (by simpa using hk),
          dropDupAux_filter keyf k (keyf x :: seen) xs,
          List.filter_cons_of_neg (by simpa using hk)]
        by_cases hks : k ∈ seen
        · rw [if_pos hks, if_pos (List.mem_cons_of_mem _ hks)]
        · have hkk : ¬ k ∈ keyf x :: seen := by
            intro hmem
            rcases List.mem_cons.mp hmem with h | h
            · exact hk h.symm
            · exact hks h
          rw [if_neg hks, if_neg hkk]

theorem drop_duplicates_filter {α κ : Type} (keyf : α → κ) [DecidableEq κ] (k : κ)
    (l : List α) :
    (drop_duplicates_keep_last keyf l).filter (fun a => decide (keyf a = k)) =
      ((l.filter (fun a => decide (keyf a = k))).getLast?).toList := by
  unfold drop_duplicates_keep_last
  rw [List.filter_reverse, dropDupAux_filter keyf k [] l.reverse,
    if_neg (List.not_mem_nil k), List.filter_reverse, List.head?_reverse]
  cases (l.filter fun a => decide (keyf a = k)).getLast? <;> simp

theorem mem_of_getLast?_eq {α : Type} {l : List α} {a : α} (h : l.getLast? = some a) :
    a ∈ l := by
  have hx : a ∈ l.getLast? := Option.mem_def.mpr h
  obtain ⟨hne, rfl⟩ := List.mem_getLast?_eq_getLast hx
  exact List.getLast_mem hne

theorem dropDupAux_sublist {α κ : Type} (keyf : α → κ) [DecidableEq κ] :
    ∀ (seen : List κ) (l : List α), (dropDupAux keyf seen l).Sublist l
  | _, [] => List.Sublist.refl []
  | seen, x :: xs => by
    rw [dropDupAux]
    split
    · exact (dropDupAux_sublist keyf seen xs).cons x
    · exact (dropDupAux_sublist keyf (keyf x :: seen) xs).cons₂ x

theorem drop_duplicates_sublist {α κ : Type} (keyf : α → κ) [DecidableEq κ] (l : List α) :
    (drop_duplicates_keep_last keyf l).Sublist l := by
  unfold drop_duplicates_keep_last
  have h := (dropDupAux_sublist keyf [] l.reverse).reverse
  simpa using h

theorem dropDupAux_keys {α κ : Type} (keyf : α → κ) [DecidableEq κ] :
    ∀ (seen : List κ) (l : List α),
      (dropDupAux keyf seen l).Pairwise (fun a b => keyf a ≠ keyf b) ∧
        ∀ a ∈ dropDupAux keyf seen l, keyf a ∉ seen
  | seen, [] => ⟨List.Pairwise.nil, by simp [dropDupAux]⟩
  | seen, x :: xs => by
    rw [dropDupAux]
    by_cases hseen : keyf x ∈ seen
    · rw [if_pos hseen]
      exact dropDupAux_keys keyf seen xs
    · rw [if_neg hseen]
      obtain ⟨hpw, hnot⟩ := dropDupAux_keys keyf (keyf x :: seen) xs
      constructor
      · refine List.Pairwise.cons ?_ hpw
        intro a ha
        have h := hnot a ha
        exact fun he => h (he ▸ List.mem_cons_self _ _)
      · intro a ha
        rcases List.mem_cons.mp ha with rfl | h
        · exact hseen
        · exact fun hc => (hnot a h) (List.mem_cons_of_mem _ hc)

theorem drop_duplicates_keys_pairwise {α κ : Type} (keyf : α → κ) [DecidableEq κ]
    (l : List α) :
    (drop_duplicates_keep_last keyf l).Pairwise (fun a b => keyf a ≠ keyf b) := by
  unfold drop_duplicates_keep_last
  rw [List.pairwise_reverse]
  exact ((dropDupAux_keys keyf [] l.reverse).1).imp (fun h => Ne.symm h)

/-! ## Proofs: characterization of the merge-time deduplication policy -/

theorem lastMaxRow_cons (x : Row) (xs : List Row) :
    lastMaxRow (x :: xs) =
      match lastMaxRow xs with
      | none => some x
      | some m => if m.subscribers < x.subscribers then some x else some m := rfl

theorem lastMaxRow_cons_none {xs : List Row} (x : Row) (h : lastMaxRow xs = none) :
    lastMaxRow (x :: xs) = some x := by
  rw [lastMaxRow_cons, h]

theorem lastMaxRow_cons_some {xs : List Row} (x : Row) {m : Row} (h : lastMaxRow xs = some m) :
    lastMaxRow (x :: xs) = if m.subscribers < x.subscribers then some x else some m := by
  rw [lastMaxRow_cons, h]

theorem lastMaxRow_ne_none : ∀ (x : Row) (xs : List Row), lastMaxRow (x :: xs) ≠ none := by
  intro x xs
  cases hx : lastMaxRow xs with
  | none => rw [lastMaxRow_cons_none x hx]; simp
  | some m => rw [lastMaxRow_cons_some x hx]; split <;> simp

theorem lastMaxRow_mem : ∀ {g : List Row} {m : Row}, lastMaxRow g = some m → m ∈ g
  | [], m, h => by simp [lastMaxRow] at h
  | x :: xs, m, h => by
    cases hx : lastMaxRow xs with
    | none =>
      rw [lastMaxRow_cons_none x hx, Option.some.injEq] at h
      exact h ▸ List.mem_cons_self x xs
    | some m' =>
      rw [lastMaxRow_cons_some x hx] at h
      split at h
      · rw [Option.some.injEq] at h
        exact h ▸ List.mem_cons_self x xs
      · rw [Option.some.injEq] at h
        exact List.mem_cons_of_mem _ (h ▸ lastMaxRow_mem hx)

theorem natMax_ite (a b : Nat) : Nat.max a b = if a ≤ b then b else a := by
  unfold Nat.max
  rfl

theorem foldl_max_init : ∀ (l : List Nat) (a : Nat),
    l.foldl Nat.max a = Nat.max a (l.foldl Nat.max 0)
  | [], a => by simp
  | x :: xs, a => by
    show List.foldl Nat.max (Nat.max a x) xs = Nat.max a (List.foldl Nat.max (Nat.max 0 x) xs)
    rw [foldl_max_init xs (Nat.max a x), foldl_max_init xs (Nat.max 0 x)]
    simp only [natMax_ite]
    split_ifs <;> omega

theorem maxCount_cons (x : Row) (xs : List Row) :
    maxCount (x :: xs) = Nat.max x.subscribers (maxCount xs) := by
  unfold maxCount
  simp only [List.map_cons, List.foldl_cons]
  rw [foldl_max_init]
  simp only [natMax_ite]
  split_ifs <;> omega

theorem maxCount_singleton (x : Row) : maxCount [x] = x.subscribers := by
  unfold maxCount
  simp only [List.map_cons, List.map_nil, List.foldl_cons, List.foldl_nil]
  simp only [natMax_ite]
  split_ifs <;> omega

theorem le_maxCount : ∀ (g : List Row) (y : Row), y ∈ g → y.subscribers ≤ maxCount g
  | [], y, hy => absurd hy (List.not_mem_nil y)
  | x :: xs, y, hy => by
    rw [maxCount_cons]
    rcases List.mem_cons.mp hy with rfl | h
    · exact Nat.le_max_left _ _
    · exact le_trans (le_maxCount xs y h) (Nat.le_max_right _ _)

/-- What the §4.2 policy keeps: the surviving row carries the maximum count,
and it is the last entry of the group attaining that maximum. -/
theorem lastMaxRow_spec : ∀ (g : List Row) (m : Row), lastMaxRow g = some m →
    m.subscribers = maxCount g ∧
      (g.filter (fun y => decide (y.subscribers = maxCount g))).getLast? = some m
  | [], m, h => by simp [lastMaxRow] at h
  | x :: xs, m, h => by
    cases hx : lastMaxRow xs with
    | none =>
      have hxs : xs = [] := by
        cases xs with
        | nil => rfl
        | cons a as => exact absurd hx (lastMaxRow_ne_none a as)
      subst hxs
      rw [lastMaxRow_cons_none x hx, Option.some.injEq] at h
      subst h
      rw [maxCount_singleton]
      refine ⟨rfl, ?_⟩
      simp
    | some m' =>
      rw [lastMaxRow_cons_some x hx] at h
      obtain ⟨hval, hfilt⟩ := lastMaxRow_spec xs m' hx
      by_cases hlt : m'.subscribers < x.subscribers
      · rw [if_pos hlt, Option.some.injEq] at h
        subst h
        have hmax : maxCount (x :: xs) = x.subscribers := by
          rw [maxCount_cons, natMax_ite]
          split_ifs <;> omega
        rw [hmax]
        refine ⟨rfl, ?_⟩
        have hnone : xs.filter (fun y => decide (y.subscribers = x.subscribers)) = [] := by
          refine List.filter_eq_nil_iff.mpr fun y hy => ?_
          have := le_maxCount xs y hy
          simp only [decide_eq_true_eq]
          omega
        rw [List.filter_cons_of_pos (by simp), hnone]
        simp
      · rw [if_neg hlt, Option.some.injEq] at h
        subst h
        have hmax : maxCount (x :: xs) = maxCount xs := by
          rw [maxCount_cons, natMax_ite]
          split_ifs <;> omega
        rw [hmax]
        refine ⟨hval, ?_⟩
        by_cases hxeq : x.subscribers = maxCount xs
        · rw [List.filter_cons_of_pos (by simp [hxeq])]
          have hne : xs.filter (fun y => decide (y.subscribers = maxCount xs)) ≠ [] := by
            intro hnil
            rw [hnil] at hfilt
            simp at hfilt
          obtain ⟨c, cs, hcc⟩ := List.exists_cons_of_ne_nil hne
          rw [hcc, List.getLast?_cons_cons, ← hcc]
          exact hfilt
        · rw [List.filter_cons_of_neg (by simp [hxeq])]
          exact hfilt

theorem getLast?_orderedInsert {α : Type} (r : α → α → Prop) [DecidableRel r] [IsTrans α r]
    (x : α) : ∀ l : List α, l.Sorted r →
    (List.orderedInsert r x l).getLast? =
      match l.getLast? with
      | none => some x
      | some b => if r x b then some b else some x
  | [], _ => by simp
  | b :: t, hs => by
    by_cases hxb : r x b
    · rw [List.orderedInsert_of_le r t hxb, List.getLast?_cons_cons]
      cases hlast : (b :: t).getLast? with
      | none =>
        rw [List.getLast?_eq_none_iff] at hlast
        simp at hlast
      | some c =>
        have hc : c ∈ b :: t := mem_of_getLast?_eq hlast
        have hxc : r x c := by
          rcases List.mem_cons.mp hc with rfl | hct
          · exact hxb
          · exact IsTrans.trans x b c hxb (List.rel_of_sorted_cons hs c hct)
        show some c = if r x c then some c else some x
        rw [if_pos hxc]
    · simp only [List.orderedInsert, if_neg hxb]
      cases t with
      | nil => simp [hxb]
      | cons c t' =>
        have hne : List.orderedInsert r x (c :: t') ≠ [] := by
          simp only [List.orderedInsert]
          split <;> simp
        obtain ⟨d, ds, hdd⟩ := List.exists_cons_of_ne_nil hne
        rw [hdd, List.getLast?_cons_cons, ← hdd,
          getLast?_orderedInsert r x (c :: t') hs.of_cons, List.getLast?_cons_cons]

theorem rowLe_iff_subs_of_same_key {x m : Row} (hk : rowKey x = rowKey m) :
    rowLe x m ↔ x.subscribers ≤ m.subscribers := by
  unfold rowKey at hk
  have h1 : x.mod_id = m.mod_id := congrArg Prod.fst hk
  have h2 : x.timestamp = m.timestamp := congrArg Prod.snd hk
  unfold rowLe
  constructor
  · rintro (h | ⟨_, h | ⟨_, h⟩⟩)
    · omega
    · rw [h2, charsLt_irrefl] at h
      exact absurd h (by simp)
    · exact h
  · intro hs
    exact Or.inr ⟨h1, Or.inr ⟨h2, hs⟩⟩

theorem getLast?_sortLex_same_key : ∀ (g : List Row) (k : Nat × Chars),
    (∀ a ∈ g, rowKey a = k) → (List.insertionSort rowLe g).getLast? = lastMaxRow g
  | [], _, _ => rfl
  | x :: g', k, h => by
    haveI : IsTrans Row rowLe := ⟨rowLe_trans⟩
    haveI : IsTotal Row rowLe := ⟨rowLe_total⟩
    show (List.orderedInsert rowLe x (List.insertionSort rowLe g')).getLast? = _
    rw [getLast?_orderedInsert rowLe x _ (List.sorted_insertionSort rowLe g')]
    have hperm := List.perm_insertionSort rowLe g'
    cases hlast : (List.insertionSort rowLe g').getLast? with
    | none =>
      have hnil : List.insertionSort rowLe g' = [] := List.getLast?_eq_none_iff.mp hlast
      have hg' : g' = [] := by
        have hp := hperm.symm
        rw [hnil] at hp
        exact hp.eq_nil
      subst hg'
      rfl
    | some m' =>
      have hm'g : m' ∈ g' := hperm.subset (mem_of_getLast?_eq hlast)
      have IH := getLast?_sortLex_same_key g' k (fun a ha => h a (List.mem_cons_of_mem x ha))
      rw [hlast] at IH
      rw [lastMaxRow_cons_some x IH.symm]
      show (if rowLe x m' then some m' else some x) = _
      have hk1 : rowKey x = k := h x (List.mem_cons_self x g')
      have hk2 : rowKey m' = k := h m' (List.mem_cons_of_mem x hm'g)
      have hiff := rowLe_iff_subs_of_same_key (hk1.trans hk2.symm)
      by_cases hxm : rowLe x m'
      · rw [if_pos hxm, if_neg (by have := hiff.mp hxm; omega)]
      · have hgt : m'.subscribers < x.subscribers := by
          by_contra hcon
          exact hxm (hiff.mpr (by omega))
        rw [if_neg hxm, if_pos hgt]

theorem dedup_core_filter_key (l : List Row) (k : Nat × Chars) :
    (drop_duplicates_keep_last rowKey (List.insertionSort rowLe l)).filter
        (fun a => decide (rowKey a = k)) =
      (lastMaxRow (l.filter (fun a => decide (rowKey a = k)))).toList := by
  haveI : IsTrans Row rowLe := ⟨rowLe_trans⟩
  haveI : IsTotal Row rowLe := ⟨rowLe_total⟩
  rw [drop_duplicates_filter rowKey k, filter_insertionSort rowLe _ l,
    getLast?_sortLex_same_key (l.filter fun a => decide (rowKey a = k)) k
      (fun a ha => of_decide_eq_true (List.mem_filter.mp ha).2)]

theorem sortTs_of_option_toList (o : Option Row) :
    List.insertionSort tsLe o.toList = o.toList := by
  cases o <;> rfl

theorem merge_core_filter_key (C : List Row) (k : Nat × Chars) :
    (List.insertionSort tsLe
        (drop_duplicates_keep_last rowKey (List.insertionSort rowLe C))).filter
        (fun a => decide (rowKey a = k)) =
      (lastMaxRow (C.filter (fun a => decide (rowKey a = k)))).toList := by
  haveI : IsTrans Row tsLe := ⟨tsLe_trans⟩
  haveI : IsTotal Row tsLe := ⟨tsLe_total⟩
  rw [filter_insertionSort tsLe _ _, dedup_core_filter_key C k, sortTs_of_option_toList]

theorem merge_with_existing_filter_key (E : Option (List Row)) (B : List Row)
    (k : Nat × Chars) :
    (merge_with_existing E B).filter (fun a => decide (rowKey a = k)) =
      (lastMaxRow ((E.getD [] ++ B).filter (fun a => decide (rowKey a = k)))).toList :=
  merge_core_filter_key (E.getD [] ++ B) k

theorem clean_data_filter_key (l : List Row) (k : Nat × Chars) :
    (clean_data l).filter (fun a => decide (rowKey a = k)) =
      (lastMaxRow (l.filter (fun a => decide (rowKey a = k)))).toList := by
  by_cases hl : l.isEmpty
  · have hnil : l = [] := by
      cases l with
      | nil => rfl
      | cons a as => simp at hl
    subst hnil
    simp [clean_data, lastMaxRow]
  · unfold clean_data
    rw [if_neg hl]
    exact merge_core_filter_key l k

theorem maxCount_append : ∀ (A L : List Row),
    maxCount (A ++ L) = Nat.max (maxCount A) (maxCount L)
  | [], L => by
    show maxCount L = Nat.max (maxCount []) (maxCount L)
    have h0 : maxCount [] = 0 := rfl
    rw [h0, natMax_ite]
    split_ifs <;> omega
  | x :: A', L => by
    rw [List.cons_append, maxCount_cons, maxCount_append A' L, maxCount_cons]
    simp only [natMax_ite]
    split_ifs <;> omega

/-- Re-running the keep-last-max selection with the previous survivor
prepended to the batch keeps the same survivor. -/
theorem lastMaxRow_cons_self (A L : List Row) (s : Row)
    (h : lastMaxRow (A ++ L) = some s) : lastMaxRow (s :: L) = some s := by
  cases hL : lastMaxRow L with
  | none => exact lastMaxRow_cons_none s hL
  | some m =>
    rw [lastMaxRow_cons_some s hL]
    by_cases hlt : m.subscribers < s.subscribers
    · rw [if_pos hlt]
    · rw [if_neg hlt]
      obtain ⟨hsv, hsf⟩ := lastMaxRow_spec _ s h
      obtain ⟨hmv, hmf⟩ := lastMaxRow_spec _ m hL
      have hmL : m ∈ L := lastMaxRow_mem hL
      have hmle : m.subscribers ≤ maxCount (A ++ L) :=
        le_maxCount _ m (List.mem_append_right A hmL)
      have heq : m.subscribers = s.subscribers := by omega
      have hmaxeq : maxCount L = maxCount (A ++ L) := by
        have h1 : maxCount L ≤ maxCount (A ++ L) := by
          rw [maxCount_append]
          exact Nat.le_max_right _ _
        omega
      rw [List.filter_append] at hsf
      have hfne : L.filter (fun y => decide (y.subscribers = maxCount (A ++ L))) ≠ [] := by
        intro hnil
        have hm : m ∈ L.filter (fun y => decide (y.subscribers = maxCount (A ++ L))) :=
          List.mem_filter.mpr ⟨hmL, by simp [hmv, hmaxeq]⟩
        rw [hnil] at hm
        exact absurd hm (List.not_mem_nil m)
      rw [List.getLast?_append_of_ne_nil _ hfne] at hsf
      rw [hmaxeq, hsf] at hmf
      exact hmf.symm

theorem dedup_core_sorted (C : List Row) :
    (drop_duplicates_keep_last rowKey (List.insertionSort rowLe C)).Sorted rowLe := by
  haveI : IsTrans Row rowLe := ⟨rowLe_trans⟩
  haveI : IsTotal Row rowLe := ⟨rowLe_total⟩
  exact List.Pairwise.sublist (drop_duplicates_sublist rowKey _)
    (List.sorted_insertionSort rowLe C)

theorem dedup_core_nodup (C : List Row) :
    (drop_duplicates_keep_last rowKey (List.insertionSort rowLe C)).Nodup := by
  have h := drop_duplicates_keys_pairwise rowKey (List.insertionSort rowLe C)
  exact h.imp fun hne heq => hne (congrArg rowKey heq)

theorem dedup_core_mem_iff (C : List Row) (x : Row) :
    x ∈ drop_duplicates_keep_last rowKey (List.insertionSort rowLe C) ↔
      lastMaxRow (C.filter (fun a => decide (rowKey a = rowKey x))) = some x := by
  constructor
  · intro hx
    have hf : x ∈ (drop_duplicates_keep_last rowKey
        (List.insertionSort rowLe C)).filter (fun a => decide (rowKey a = rowKey x)) :=
      List.mem_filter.mpr ⟨hx, by simp⟩
    rw [dedup_core_filter_key] at hf
    cases ho : lastMaxRow (C.filter fun a => decide (rowKey a = rowKey x)) with
    | none =>
      rw [ho] at hf
      simp at hf
    | some y =>
      rw [ho] at hf
      simp only [Option.toList_some, List.mem_singleton] at hf
      rw [hf]
  · intro hx
    have hf : x ∈ (lastMaxRow (C.filter fun a => decide (rowKey a = rowKey x))).toList := by
      rw [hx]
      simp
    rw [← dedup_core_filter_key] at hf
    exact (List.mem_filter.mp hf).1

theorem merge_twice_survivor (T : Option (List Row)) (B : List Row) (k : Nat × Chars) :
    lastMaxRow ((merge_with_existing T B ++ B).filter (fun a => decide (rowKey a = k))) =
      lastMaxRow ((T.getD [] ++ B).filter (fun a => decide (rowKey a = k))) := by
  rw [List.filter_append, merge_with_existing_filter_key T B k]
  cases hs : lastMaxRow ((T.getD [] ++ B).filter fun a => decide (rowKey a = k)) with
  | none =>
    have hnil : (T.getD [] ++ B).filter (fun a => decide (rowKey a = k)) = [] := by
      cases hF : (T.getD [] ++ B).filter (fun a => decide (rowKey a = k)) with
      | nil => rfl
      | cons a as =>
        rw [hF] at hs
        exact absurd hs (lastMaxRow_ne_none a as)
    rw [List.filter_append] at hnil
    have hBnil : B.filter (fun a => decide (rowKey a = k)) = [] :=
      (List.append_eq_nil.mp hnil).2
    rw [hBnil]
    rfl
  | some s =>
    have h' : lastMaxRow ((T.getD []).filter (fun a => decide (rowKey a = k)) ++
        B.filter (fun a => decide (rowKey a = k))) = some s := by
      rw [← List.filter_append]
      exact hs
    simpa using lastMaxRow_cons_self _ _ s h'

theorem merge_dedup_eq_of_twice (T : Option (List Row)) (B : List Row) :
    drop_duplicates_keep_last rowKey
        (List.insertionSort rowLe (merge_with_existing T B ++ B)) =
      drop_duplicates_keep_last rowKey (List.insertionSort rowLe (T.getD [] ++ B)) := by
  haveI : IsAntisymm Row rowLe := ⟨rowLe_antisymm⟩
  apply List.eq_of_perm_of_sorted ?_ (dedup_core_sorted _) (dedup_core_sorted _)
  refine (List.perm_ext_iff_of_nodup (dedup_core_nodup _) (dedup_core_nodup _)).mpr ?_
  intro x
  rw [dedup_core_mem_iff, dedup_core_mem_iff, merge_twice_survivor T B (rowKey x)]

/-- C3: on any batch, the merge-time deduplicator keeps exactly one
observation per colliding `(mod_id, timestamp)` key; the survivor carries the
maximum subscriber count of the group, and it is the entry appearing last in
pre-sort input order among those tied at the maximum (so when counts differ
the survivor's count is the maximum); an empty input yields an empty
output. -/
theorem clean_data_dedup_policy :
    clean_data [] = [] ∧
    ∀ (l : List Row) (k : Nat × Chars),
      l.filter (fun a => decide (rowKey a = k)) ≠ [] →
      ∃ r, (clean_data l).filter (fun a => decide (rowKey a = k)) = [r] ∧
        r.subscribers = maxCount (l.filter (fun a => decide (rowKey a = k))) ∧
        ((l.filter (fun a => decide (rowKey a = k))).filter
            (fun y => decide (y.subscribers =
              maxCount (l.filter (fun a => decide (rowKey a = k)))))).getLast? = some r := by
  refine ⟨rfl, ?_⟩
  intro l k hne
  obtain ⟨x, xs, hxx⟩ := List.exists_cons_of_ne_nil hne
  cases hlm : lastMaxRow (l.filter fun a => decide (rowKey a = k)) with
  | none =>
    rw [hxx] at hlm
    exact absurd hlm (lastMaxRow_ne_none x xs)
  | some r =>
    obtain ⟨hval, hfilt⟩ := lastMaxRow_spec _ r hlm
    refine ⟨r, ?_, hval, hfilt⟩
    rw [clean_data_filter_key l k, hlm]
    rfl

theorem clean_data_dedup_policy_witness :
    (([⟨1, ['t'], 3⟩, ⟨1, ['t'], 7⟩, ⟨1, ['t'], 5⟩] : List Row).filter
        (fun a => decide (rowKey a = (1, ['t']))) ≠ []) ∧
    (∃ r, (clean_data [⟨1, ['t'], 3⟩, ⟨1, ['t'], 7⟩, ⟨1, ['t'], 5⟩]).filter
          (fun a => decide (rowKey a = (1, ['t']))) = [r] ∧
        r.subscribers = maxCount (([⟨1, ['t'], 3⟩, ⟨1, ['t'], 7⟩, ⟨1, ['t'], 5⟩] : List Row).filter
          (fun a => decide (rowKey a = (1, ['t'])))) ∧
        ((([⟨1, ['t'], 3⟩, ⟨1, ['t'], 7⟩, ⟨1, ['t'], 5⟩] : List Row).filter
              (fun a => decide (rowKey a = (1, ['t'])))).filter
            (fun y => decide (y.subscribers =
              maxCount (([⟨1, ['t'], 3⟩, ⟨1, ['t'], 7⟩, ⟨1, ['t'], 5⟩] : List Row).filter
                (fun a => decide (rowKey a = (1, ['t']))))))).getLast? = some r) :=
  ⟨by decide, clean_data_dedup_policy.2 _ _ (by decide)⟩

/-- C4: the Table Merger is idempotent — merging the same batch into the
result of merging it into the persisted Table reproduces that result exactly
(the counts of the identical batch are trivially non-decreasing across the
two calls, so this proves the claim without a side condition). -/
theorem merge_with_existing_idempotent (T : Option (List Row)) (B : List Row) :
    merge_with_existing (some (merge_with_existing T B)) B = merge_with_existing T B := by
  show List.insertionSort tsLe
      (drop_duplicates_keep_last rowKey
        (List.insertionSort rowLe (merge_with_existing T B ++ B))) =
    merge_with_existing T B
  rw [merge_dedup_eq_of_twice T B]
  rfl

/-! ## Proofs: the plot-time deduplication and the snap claims -/

theorem plot_dedup_filter_key (l : List PRow) (k : Int × Nat) :
    (plot_dedup l).filter (fun a => decide (pKey a = k)) =
      ((l.filter (fun a => decide (pKey a = k))).getLast?).toList := by
  haveI : IsTrans PRow pTsLe := ⟨pTsLe_trans⟩
  haveI : IsTotal PRow pTsLe := ⟨pTsLe_total⟩
  unfold plot_dedup
  rw [drop_duplicates_filter pKey k, filter_insertionSort pTsLe _ l,
    insertionSort_of_rel_all pTsLe (l.filter fun a => decide (pKey a = k)) ?_]
  intro a ha b hb
  have hka : pKey a = k := of_decide_eq_true (List.mem_filter.mp ha).2
  have hkb : pKey b = k := of_decide_eq_true (List.mem_filter.mp hb).2
  show a.timestamp ≤ b.timestamp
  have hts : a.timestamp = b.timestamp := congrArg Prod.fst (hka.trans hkb.symm)
  omega

/-- C1 (amended): the plot-time deduplication keyed on
`(timestamp, mod_id)` keeps, for every key, exactly the observation that
appears last in input order among the colliding ones — irrespective of its
count — and therefore leaves at most one observation per key, so the
per-timestamp aggregate never double-counts an entity. -/
theorem plot_dedup_keeps_last_per_key :
    ∀ (l : List PRow) (k : Int × Nat),
      (plot_dedup l).filter (fun a => decide (pKey a = k)) =
        ((l.filter (fun a => decide (pKey a = k))).getLast?).toList ∧
      ((plot_dedup l).filter (fun a => decide (pKey a = k))).length ≤ 1 := by
  intro l k
  refine ⟨plot_dedup_filter_key l k, ?_⟩
  rw [plot_dedup_filter_key l k]
  cases (l.filter fun a => decide (pKey a = k)).getLast? <;> simp

/-- C1 counterexample: after snapping onto the reference grid `[600]`, the
two observations of entity 2 collide on key `(600, 2)` with counts 5 (first)
and 3 (last); the deduplication keeps the count-3 row, not the max-count
row the claim requires. -/
theorem plot_dedup_not_max_cex :
    plot_dedup (apply_alignment [600] [⟨2, 590, 5⟩, ⟨2, 610, 3⟩]) = [⟨2, 600, 3⟩] ∧
    (apply_alignment [600] [⟨2, 590, 5⟩, ⟨2, 610, 3⟩]).map pKey = [(600, 2), (600, 2)] ∧
    (3 : Nat) < 5 := by
  decide

/-- C2 counterexample: with reference timestamps `[0, 2]` and observation
timestamp `1` the distances to predecessor and successor are equal, and the
code returns the successor `2`, not the predecessor `0` the claim requires. -/
theorem align_tie_cex :
    ((1 : Int) - 0).natAbs = ((1 : Int) - 2).natAbs ∧
    align_to_main [0, 2] 1 = 2 ∧ (2 : Int) ≠ 0 := by
  decide

/-- C2 (amended): on a non-empty strictly sorted reference list, the snap
operation returns the element nearest to `t` by absolute time difference —
below-range snapping to the first element, above-range to the last,
otherwise the closer of predecessor and successor — but on an exact distance
tie it returns the successor (the later candidate): every element at minimal
distance is `≤` the returned one. -/
theorem align_to_main_nearest_tie_late (R : List Int) (t : Int) (hne : R ≠ [])
    (hsort : R.Pairwise (· < ·)) :
    align_to_main R t ∈ R ∧
    (∀ r ∈ R, (t - align_to_main R t).natAbs ≤ (t - r).natAbs) ∧
    (∀ r ∈ R, (t - r).natAbs = (t - align_to_main R t).natAbs →
      r ≤ align_to_main R t) :=
  align_to_main_spec R t hne hsort

theorem align_to_main_nearest_tie_late_witness :
    align_to_main [0, 10] 4 ∈ ([0, 10] : List Int) ∧
    (∀ r ∈ ([0, 10] : List Int),
      ((4 : Int) - align_to_main [0, 10] 4).natAbs ≤ ((4 : Int) - r).natAbs) ∧
    (∀ r ∈ ([0, 10] : List Int),
      ((4 : Int) - r).natAbs = ((4 : Int) - align_to_main [0, 10] 4).natAbs →
      r ≤ align_to_main [0, 10] 4) :=
  align_to_main_nearest_tie_late [0, 10] 4 (by decide) (by decide)

/-- C10: whenever the reference list is non-empty (and strictly sorted, as
`sorted(unique(...))` guarantees), every snapped timestamp is an element of
the reference list, and a timestamp already on the reference grid snaps to
itself — so the reference entity's own observations are unchanged. -/
theorem align_snap_mem_and_fixes_reference (R : List Int) (t : Int) (hne : R ≠ [])
    (hsort : R.Pairwise (· < ·)) :
    align_to_main R t ∈ R ∧ (t ∈ R → align_to_main R t = t) := by
  obtain ⟨hmem, hnear, _⟩ := align_to_main_spec R t hne hsort
  refine ⟨hmem, fun ht => ?_⟩
  have h := hnear t ht
  omega

theorem align_snap_mem_and_fixes_reference_witness :
    align_to_main [3, 7] 7 ∈ ([3, 7] : List Int) ∧
    ((7 : Int) ∈ ([3, 7] : List Int) → align_to_main [3, 7] 7 = 7) :=
  align_snap_mem_and_fixes_reference [3, 7] 7 (by decide) (by decide)

/-! ## Proofs: the timestamp normalizer -/

theorem digitChar_isDigit (n : Nat) : isDigitChar (digitChar n) = true := by
  unfold digitChar
  split <;> decide

theorem digitVal_digitChar {n : Nat} (h : n ≤ 9) : digitVal (digitChar n) = n := by
  interval_cases n <;> decide

theorem isSpaceChar_false_of_digit {c : Char} (h : isDigitChar c = true) :
    isSpaceChar c = false := by
  unfold isDigitChar at h
  rw [Bool.and_eq_true, decide_eq_true_eq, decide_eq_true_eq] at h
  have h1 : c ≠ ' ' := fun hc => by rw [hc] at h; exact absurd h (by decide)
  have h2 : c ≠ '\t' := fun hc => by rw [hc] at h; exact absurd h (by decide)
  have h3 : c ≠ '\n' := fun hc => by rw [hc] at h; exact absurd h (by decide)
  have h4 : c ≠ '\r' := fun hc => by rw [hc] at h; exact absurd h (by decide)
  have h5 : c.toNat ≠ 11 := by omega
  have h6 : c.toNat ≠ 12 := by omega
  simp [isSpaceChar, h1, h2, h3, h4, h5, h6]

theorem not_space_of_digit {c : Char} (h : isDigitChar c = true) :
    ¬ (isSpaceChar c = true) := by
  rw [isSpaceChar_false_of_digit h]
  simp

theorem pad2_all_digit (v : Nat) : ∀ c ∈ pad2 v, isDigitChar c = true := by
  intro c hc
  unfold pad2 at hc
  rcases List.mem_cons.mp hc with rfl | hc
  · exact digitChar_isDigit _
  · rcases List.mem_cons.mp hc with rfl | hc
    · exact digitChar_isDigit _
    · exact absurd hc (List.not_mem_nil c)

theorem pad4_all_digit (v : Nat) : ∀ c ∈ pad4 v, isDigitChar c = true := by
  intro c hc
  unfold pad4 at hc
  simp only [List.mem_cons, List.not_mem_nil, or_false] at hc
  rcases hc with rfl | rfl | rfl | rfl <;> exact digitChar_isDigit _

theorem renderNum_all_digit (p : Bool) (v : Nat) :
    ∀ c ∈ renderNum p v, isDigitChar c = true := by
  intro c hc
  unfold renderNum at hc
  split at hc
  · rcases List.mem_cons.mp hc with rfl | hc
    · exact digitChar_isDigit _
    · exact absurd hc (List.not_mem_nil c)
  · exact pad2_all_digit v c hc

theorem not_mem_of_all_digit {s : Chars} (hs : ∀ c ∈ s, isDigitChar c = true)
    {d : Char} (hd : isDigitChar d = false) : d ∉ s := by
  intro hm
  rw [hs d hm] at hd
  exact absurd hd (by simp)

theorem pySplit_ne_nil (sep : Char) (s : Chars) : pySplit sep s ≠ [] := by
  cases s with
  | nil => simp [pySplit]
  | cons c rest =>
    show (match pySplit sep rest with
      | [] => [[]]
      | g :: gs => if c = sep then [] :: g :: gs else (c :: g) :: gs) ≠ []
    cases pySplit sep rest with
    | nil => simp
    | cons g gs =>
      show ¬ (if c = sep then [] :: g :: gs else (c :: g) :: gs) = []
      split <;> simp

theorem pySplit_no_sep {sep : Char} : ∀ {A : Chars}, sep ∉ A → pySplit sep A = [A]
  | [], _ => rfl
  | c :: rest, h => by
    have hc : c ≠ sep := fun hcc => h (hcc ▸ List.mem_cons_self c rest)
    have ih := pySplit_no_sep (fun hm => h (List.mem_cons_of_mem c hm))
    show (match pySplit sep rest with
      | [] => [[]]
      | g :: gs => if c = sep then [] :: g :: gs else (c :: g) :: gs) = [c :: rest]
    rw [ih]
    simp [hc]

theorem pySplit_append_sep {sep : Char} : ∀ {A : Chars} (B : Chars), sep ∉ A →
    pySplit sep (A ++ sep :: B) = A :: pySplit sep B
  | [], B, _ => by
    show (match pySplit sep B with
      | [] => [[]]
      | g :: gs => if sep = sep then [] :: g :: gs else (sep :: g) :: gs) = [] :: pySplit sep B
    obtain ⟨g, gs, hg⟩ := List.exists_cons_of_ne_nil (pySplit_ne_nil sep B)
    rw [hg]
    simp
  | c :: A', B, h => by
    have hc : c ≠ sep := fun hcc => h (hcc ▸ List.mem_cons_self c A')
    have ih := pySplit_append_sep (A := A') B (fun hm => h (List.mem_cons_of_mem c hm))
    show (match pySplit sep (A' ++ sep :: B) with
      | [] => [[]]
      | g :: gs => if c = sep then [] :: g :: gs else (c :: g) :: gs) =
      (c :: A') :: pySplit sep B
    rw [ih]
    simp [hc]

theorem getLast?_cons_of_ne_nil {α : Type} (a : α) {l : List α} (h : l ≠ []) :
    (a :: l).getLast? = l.getLast? := by
  obtain ⟨b, bs, rfl⟩ := List.exists_cons_of_ne_nil h
  exact List.getLast?_cons_cons

theorem pyStrip_eq_self {s : Chars}
    (hh : ∀ c, s.head? = some c → isSpaceChar c = false)
    (hl : ∀ c, s.getLast? = some c → isSpaceChar c = false) : pyStrip s = s := by
  unfold pyStrip
  cases s with
  | nil => rfl
  | cons c rest =>
    rw [List.dropWhile_cons, if_neg (by rw [hh c rfl]; simp)]
    cases hlast : (c :: rest).reverse with
    | nil => simp at hlast
    | cons d ds =>
      have hd : (c :: rest).getLast? = some d := by
        rw [← List.head?_reverse, hlast]
        rfl
      rw [List.dropWhile_cons, if_neg (by rw [hl d hd]; simp), ← hlast,
        List.reverse_reverse]

theorem expectChar_cons_self (c : Char) (X : Chars) : expectChar c (c :: X) = some X := by
  show (if c = c then some X else none) = some X
  rw [if_pos rfl]

theorem parseWs1_space (X : Chars) : parseWs1 (' ' :: X) = some (X.dropWhile isSpaceChar) := by
  show (if isSpaceChar ' ' = true then some (X.dropWhile isSpaceChar) else none) =
    some (X.dropWhile isSpaceChar)
  rw [if_pos (by decide)]

theorem dropWhile_space_pad2 (v : Nat) (rest : Chars) :
    (pad2 v ++ rest).dropWhile isSpaceChar = pad2 v ++ rest := by
  show (digitChar (v / 10) :: (digitChar (v % 10) :: rest)).dropWhile isSpaceChar = _
  rw [List.dropWhile_cons, if_neg (not_space_of_digit (digitChar_isDigit _))]
  rfl

theorem daysInMonth_le_31 (y m : Nat) : daysInMonth y m ≤ 31 := by
  unfold daysInMonth
  split_ifs <;> omega

theorem parseField_pad2 (lo2 hi2 lo1 hi1 v : Nat) (hv : v ≤ 99) (h1 : lo2 ≤ v)
    (h2 : v ≤ hi2) (rest : Chars) :
    parseField lo2 hi2 lo1 hi1 (pad2 v ++ rest) = some (v, rest) := by
  have e1 : digitVal (digitChar (v / 10)) = v / 10 := digitVal_digitChar (by omega)
  have e2 : digitVal (digitChar (v % 10)) = v % 10 := digitVal_digitChar (by omega)
  show parseField lo2 hi2 lo1 hi1 (digitChar (v / 10) :: digitChar (v % 10) :: rest) =
    some (v, rest)
  unfold parseField
  simp only [digitChar_isDigit, if_true, e1, e2]
  rw [show 10 * (v / 10) + v % 10 = v from by omega]
  simp [h1, h2]

theorem parseYear4_pad4 (y : Nat) (hy : y ≤ 9999) (rest : Chars) :
    parseYear4 (pad4 y ++ rest) = some (y, rest) := by
  have e1 : digitVal (digitChar (y / 1000)) = y / 1000 := digitVal_digitChar (by omega)
  have e2 : digitVal (digitChar (y / 100 % 10)) = y / 100 % 10 := digitVal_digitChar (by omega)
  have e3 : digitVal (digitChar (y / 10 % 10)) = y / 10 % 10 := digitVal_digitChar (by omega)
  have e4 : digitVal (digitChar (y % 10)) = y % 10 := digitVal_digitChar (by omega)
  show parseYear4 (digitChar (y / 1000) :: digitChar (y / 100 % 10) ::
    digitChar (y / 10 % 10) :: digitChar (y % 10) :: rest) = some (y, rest)
  unfold parseYear4
  simp only [digitChar_isDigit, Bool.and_self, if_true, e1, e2, e3, e4]
  rw [show 1000 * (y / 1000) + 100 * (y / 100 % 10) + 10 * (y / 10 % 10) + y % 10 = y from
    by omega]

/-- The canonical zero-padded rendering of an in-range datetime passes the
`strptime` validation and parses back to its components. -/
theorem strptime_canon (y m d h mi s : Nat) (hy1 : 1 ≤ y) (hy2 : y ≤ 9999)
    (hm1 : 1 ≤ m) (hm2 : m ≤ 12) (hd1 : 1 ≤ d) (hd2 : d ≤ daysInMonth y m)
    (hh : h ≤ 23) (hmi : mi ≤ 59) (hs : s ≤ 59) :
    strptimeYmdHMS (canonChars y m d h mi s) = some (y, m, d, h, mi, s) := by
  have hY := parseYear4_pad4 y hy2
  have hM := parseField_pad2 1 12 1 9 m (by omega) hm1 hm2
  have hD := parseField_pad2 1 31 1 9 d
    (by have := daysInMonth_le_31 y m; omega) hd1
    (le_trans hd2 (daysInMonth_le_31 y m))
  have hH := parseField_pad2 0 23 0 9 h (by omega) (by omega) hh
  have hMi := parseField_pad2 0 59 0 9 mi (by omega) (by omega) hmi
  have hS : parseField 0 61 0 9 (pad2 s) = some (s, []) := by
    have := parseField_pad2 0 61 0 9 s (by omega) (by omega) (by omega) []
    rwa [List.append_nil] at this
  show strptimeYmdHMS (pad4 y ++ '-' :: (pad2 m ++ '-' :: (pad2 d ++ ' ' ::
    (pad2 h ++ ':' :: (pad2 mi ++ ':' :: pad2 s))))) = some (y, m, d, h, mi, s)
  unfold strptimeYmdHMS
  simp only [hY, hM, hD, hH, hMi, hS, expectChar_cons_self, parseWs1_space,
    dropWhile_space_pad2, Option.bind_eq_bind, Option.some_bind]
  simp [hy1, hd2, hs]

theorem renderNum_ne_nil (p : Bool) (v : Nat) : renderNum p v ≠ [] := by
  unfold renderNum
  split <;> simp [pad2]

theorem zfill2_renderNum {v : Nat} (hv : v ≤ 99) (p : Bool) :
    zfill2 (renderNum p v) = pad2 v := by
  unfold renderNum
  split
  · next hcase =>
    show zfill2 [digitChar v] = pad2 v
    unfold zfill2
    rw [if_pos (by simp)]
    show ['0', digitChar v] = [digitChar (v / 10), digitChar (v % 10)]
    rw [show v / 10 = 0 from by omega, show v % 10 = v from by omega]
    rfl
  · unfold zfill2
    rw [if_neg (by simp [pad2])]

theorem not_mem_append_of {α : Type} {d : α} {A B : List α} (hA : d ∉ A) (hB : d ∉ B) :
    d ∉ A ++ B := by
  intro h
  rcases List.mem_append.mp h with h | h
  · exact hA h
  · exact hB h

theorem not_mem_cons_of {α : Type} {d c : α} {B : List α} (hc : d ≠ c) (hB : d ∉ B) :
    d ∉ c :: B := by
  intro h
  rcases List.mem_cons.mp h with h | h
  · exact hc h
  · exact hB h

theorem not_mem_digits {s : Chars} (hs : ∀ c ∈ s, isDigitChar c = true) {d : Char}
    (hd : isDigitChar d = false) : d ∉ s :=
  not_mem_of_all_digit hs hd

theorem normalize_slash_time_sec (y m d h mi s : Nat) (pm pdd ph pmi ps : Bool)
    (hy1 : 1 ≤ y) (hy2 : y ≤ 9999) (hm1 : 1 ≤ m) (hm2 : m ≤ 12) (hd1 : 1 ≤ d)
    (hd2 : d ≤ daysInMonth y m) (hh : h ≤ 23) (hmi : mi ≤ 59) (hs : s ≤ 59) :
    normalize_timestamp
        (some (slashShape y pm m pdd d (some (ph, h, pmi, mi, some (ps, s))))) =
      some (canonChars y m d h mi s) := by
  have hm99 : m ≤ 99 := by omega
  have hd99 : d ≤ 99 := by have := daysInMonth_le_31 y m; omega
  have hh99 : h ≤ 99 := by omega
  have hmi99 : mi ≤ 99 := by omega
  have hs99 : s ≤ 99 := by omega
  have hshape : slashShape y pm m pdd d (some (ph, h, pmi, mi, some (ps, s))) =
      (pad4 y ++ '/' :: (renderNum pm m ++ '/' :: renderNum pdd d)) ++
        ' ' :: (renderNum ph h ++ ':' :: (renderNum pmi mi ++ ':' :: renderNum ps s)) := by
    simp [slashShape, List.append_assoc, List.cons_append]
  have hA : ' ' ∉ pad4 y ++ '/' :: (renderNum pm m ++ '/' :: renderNum pdd d) :=
    not_mem_append_of (not_mem_digits (pad4_all_digit y) (by decide))
      (not_mem_cons_of (by decide)
        (not_mem_append_of (not_mem_digits (renderNum_all_digit pm m) (by decide))
          (not_mem_cons_of (by decide)
            (not_mem_digits (renderNum_all_digit pdd d) (by decide)))))
  have hB : ' ' ∉ renderNum ph h ++ ':' :: (renderNum pmi mi ++ ':' :: renderNum ps s) :=
    not_mem_append_of (not_mem_digits (renderNum_all_digit ph h) (by decide))
      (not_mem_cons_of (by decide)
        (not_mem_append_of (not_mem_digits (renderNum_all_digit pmi mi) (by decide))
          (not_mem_cons_of (by decide)
            (not_mem_digits (renderNum_all_digit ps s) (by decide)))))
  have hne0 : slashShape y pm m pdd d (some (ph, h, pmi, mi, some (ps, s))) ≠ [] := by
    rw [hshape]
    simp
  have hhead : ∀ c, (slashShape y pm m pdd d (some (ph, h, pmi, mi, some (ps, s)))).head? =
      some c → isSpaceChar c = false := by
    intro c hc
    rw [hshape] at hc
    simp only [pad4, List.cons_append, List.head?_cons, Option.some.injEq] at hc
    rw [← hc]
    exact isSpaceChar_false_of_digit (digitChar_isDigit _)
  have hlastd : ∀ c, (slashShape y pm m pdd d (some (ph, h, pmi, mi, some (ps, s)))).getLast? =
      some c → isSpaceChar c = false := by
    intro c hc
    rw [hshape, List.getLast?_append_of_ne_nil _ (by simp),
      getLast?_cons_of_ne_nil _ (by simp),
      List.getLast?_append_of_ne_nil _ (by simp),
      getLast?_cons_of_ne_nil _ (by simp),
      List.getLast?_append_of_ne_nil _ (by simp [renderNum_ne_nil ps s]),
      getLast?_cons_of_ne_nil _ (renderNum_ne_nil ps s)] at hc
    exact isSpaceChar_false_of_digit
      (renderNum_all_digit ps s c (mem_of_getLast?_eq hc))
  have hstrip : pyStrip (slashShape y pm m pdd d (some (ph, h, pmi, mi, some (ps, s)))) =
      slashShape y pm m pdd d (some (ph, h, pmi, mi, some (ps, s))) :=
    pyStrip_eq_self hhead hlastd
  have hslash : '/' ∈ slashShape y pm m pdd d (some (ph, h, pmi, mi, some (ps, s))) := by
    rw [hshape]
    simp
  have hsplit1 : pySplit ' ' (slashShape y pm m pdd d (some (ph, h, pmi, mi, some (ps, s)))) =
      [pad4 y ++ '/' :: (renderNum pm m ++ '/' :: renderNum pdd d),
        renderNum ph h ++ ':' :: (renderNum pmi mi ++ ':' :: renderNum ps s)] := by
    rw [hshape, pySplit_append_sep _ hA, pySplit_no_sep hB]
  have hsplit2 : pySplit '/' (pad4 y ++ '/' :: (renderNum pm m ++ '/' :: renderNum pdd d)) =
      [pad4 y, renderNum pm m, renderNum pdd d] := by
    rw [pySplit_append_sep _ (not_mem_digits (pad4_all_digit y) (by decide)),
      pySplit_append_sep _ (not_mem_digits (renderNum_all_digit pm m) (by decide)),
      pySplit_no_sep (not_mem_digits (renderNum_all_digit pdd d) (by decide))]
  have hsplit3 : pySplit ':'
      (renderNum ph h ++ ':' :: (renderNum pmi mi ++ ':' :: renderNum ps s)) =
      [renderNum ph h, renderNum pmi mi, renderNum ps s] := by
    rw [pySplit_append_sep _ (not_mem_digits (renderNum_all_digit ph h) (by decide)),
      pySplit_append_sep _ (not_mem_digits (renderNum_all_digit pmi mi) (by decide)),
      pySplit_no_sep (not_mem_digits (renderNum_all_digit ps s) (by decide))]
  have hvalid : strptimeValid (canonChars y m d h mi s) = true := by
    unfold strptimeValid
    rw [strptime_canon y m d h mi s hy1 hy2 hm1 hm2 hd1 hd2 hh hmi hs]
    rfl
  simp only [normalize_timestamp]
  rw [if_neg hne0, hstrip, if_pos hslash, hsplit1]
  simp only [List.headD_cons, List.length_cons, List.length_nil, List.getD_cons_succ,
    List.getD_cons_zero, gt_iff_lt]
  rw [hsplit2]
  rw [if_pos (by omega : (1 : Nat) < 0 + 1 + 1)]
  rw [hsplit3]
  simp only [List.headD_cons, List.length_cons, List.length_nil, List.getD_cons_succ,
    List.getD_cons_zero]
  rw [if_pos (by omega : (1 : Nat) < 0 + 1 + 1 + 1),
    if_pos (by omega : (2 : Nat) < 0 + 1 + 1 + 1)]
  rw [zfill2_renderNum hm99 pm, zfill2_renderNum hd99 pdd, zfill2_renderNum hh99 ph,
    zfill2_renderNum hmi99 pmi, zfill2_renderNum hs99 ps]
  rw [show pad4 y ++ '-' :: (pad2 m ++ '-' :: (pad2 d ++ ' ' :: (pad2 h ++ ':' ::
    (pad2 mi ++ ':' :: pad2 s)))) = canonChars y m d h mi s from rfl]
  rw [hvalid]
  simp

theorem zeroPad2 : ("00".toList : Chars) = pad2 0 := by decide

theorem normalize_slash_time_nosec (y m d h mi : Nat) (pm pdd ph pmi : Bool)
    (hy1 : 1 ≤ y) (hy2 : y ≤ 9999) (hm1 : 1 ≤ m) (hm2 : m ≤ 12) (hd1 : 1 ≤ d)
    (hd2 : d ≤ daysInMonth y m) (hh : h ≤ 23) (hmi : mi ≤ 59) :
    normalize_timestamp (some (slashShape y pm m pdd d (some (ph, h, pmi, mi, none)))) =
      some (canonChars y m d h mi 0) := by
  have hm99 : m ≤ 99 := by omega
  have hd99 : d ≤ 99 := by have := daysInMonth_le_31 y m; omega
  have hh99 : h ≤ 99 := by omega
  have hmi99 : mi ≤ 99 := by omega
  have hshape : slashShape y pm m pdd d (some (ph, h, pmi, mi, none)) =
      (pad4 y ++ '/' :: (renderNum pm m ++ '/' :: renderNum pdd d)) ++
        ' ' :: (renderNum ph h ++ ':' :: renderNum pmi mi) := by
    simp [slashShape, List.append_assoc, List.cons_append]
  have hA : ' ' ∉ pad4 y ++ '/' :: (renderNum pm m ++ '/' :: renderNum pdd d) :=
    not_mem_append_of (not_mem_digits (pad4_all_digit y) (by decide))
      (not_mem_cons_of (by decide)
        (not_mem_append_of (not_mem_digits (renderNum_all_digit pm m) (by decide))
          (not_mem_cons_of (by decide)
            (not_mem_digits (renderNum_all_digit pdd d) (by decide)))))
  have hB : ' ' ∉ renderNum ph h ++ ':' :: renderNum pmi mi :=
    not_mem_append_of (not_mem_digits (renderNum_all_digit ph h) (by decide))
      (not_mem_cons_of (by decide)
        (not_mem_digits (renderNum_all_digit pmi mi) (by decide)))
  have hne0 : slashShape y pm m pdd d (some (ph, h, pmi, mi, none)) ≠ [] := by
    rw [hshape]
    simp
  have hhead : ∀ c, (slashShape y pm m pdd d (some (ph, h, pmi, mi, none))).head? =
      some c → isSpaceChar c = false := by
    intro c hc
    rw [hshape] at hc
    simp only [pad4, List.cons_append, List.head?_cons, Option.some.injEq] at hc
    rw [← hc]
    exact isSpaceChar_false_of_digit (digitChar_isDigit _)
  have hlastd : ∀ c, (slashShape y pm m pdd d (some (ph, h, pmi, mi, none))).getLast? =
      some c → isSpaceChar c = false := by
    intro c hc
    rw [hshape, List.getLast?_append_of_ne_nil _ (by simp),
      getLast?_cons_of_ne_nil _ (by simp [renderNum_ne_nil pmi mi]),
      List.getLast?_append_of_ne_nil _ (by simp),
      getLast?_cons_of_ne_nil _ (renderNum_ne_nil pmi mi)] at hc
    exact isSpaceChar_false_of_digit
      (renderNum_all_digit pmi mi c (mem_of_getLast?_eq hc))
  have hstrip : pyStrip (slashShape y pm m pdd d (some (ph, h, pmi, mi, none))) =
      slashShape y pm m pdd d (some (ph, h, pmi, mi, none)) :=
    pyStrip_eq_self hhead hlastd
  have hslash : '/' ∈ slashShape y pm m pdd d (some (ph, h, pmi, mi, none)) := by
    rw [hshape]
    simp
  have hsplit1 : pySplit ' ' (slashShape y pm m pdd d (some (ph, h, pmi, mi, none))) =
      [pad4 y ++ '/' :: (renderNum pm m ++ '/' :: renderNum pdd d),
        renderNum ph h ++ ':' :: renderNum pmi mi] := by
    rw [hshape, pySplit_append_sep _ hA, pySplit_no_sep hB]
  have hsplit2 : pySplit '/' (pad4 y ++ '/' :: (renderNum pm m ++ '/' :: renderNum pdd d)) =
      [pad4 y, renderNum pm m, renderNum pdd d] := by
    rw [pySplit_append_sep _ (not_mem_digits (pad4_all_digit y) (by decide)),
      pySplit_append_sep _ (not_mem_digits (renderNum_all_digit pm m) (by decide)),
      pySplit_no_sep (not_mem_digits (renderNum_all_digit pdd d) (by decide))]
  have hsplit3 : pySplit ':' (renderNum ph h ++ ':' :: renderNum pmi mi) =
      [renderNum ph h, renderNum pmi mi] := by
    rw [pySplit_append_sep _ (not_mem_digits (renderNum_all_digit ph h) (by decide)),
      pySplit_no_sep (not_mem_digits (renderNum_all_digit pmi mi) (by decide))]
  have hvalid : strptimeValid (canonChars y m d h mi 0) = true := by
    unfold strptimeValid
    rw [strptime_canon y m d h mi 0 hy1 hy2 hm1 hm2 hd1 hd2 hh hmi (by omega)]
    rfl
  simp only [normalize_timestamp]
  rw [if_neg hne0, hstrip, if_pos hslash, hsplit1]
  simp only [List.headD_cons, List.length_cons, List.length_nil, List.getD_cons_succ,
    List.getD_cons_zero, gt_iff_lt]
  rw [hsplit2]
  rw [if_pos (by omega : (1 : Nat) < 0 + 1 + 1)]
  rw [hsplit3]
  simp only [List.headD_cons, List.length_cons, List.length_nil, List.getD_cons_succ,
    List.getD_cons_zero]
  rw [if_pos (by omega : (1 : Nat) < 0 + 1 + 1), if_neg (by omega : ¬ (2 : Nat) < 0 + 1 + 1)]
  rw [zfill2_renderNum hm99 pm, zfill2_renderNum hd99 pdd, zfill2_renderNum hh99 ph,
    zfill2_renderNum hmi99 pmi, zeroPad2]
  rw [show pad4 y ++ '-' :: (pad2 m ++ '-' :: (pad2 d ++ ' ' :: (pad2 h ++ ':' ::
    (pad2 mi ++ ':' :: pad2 0)))) = canonChars y m d h mi 0 from rfl]
  rw [hvalid]
  simp

theorem normalize_slash_notime (y m d : Nat) (pm pdd : Bool)
    (hy1 : 1 ≤ y) (hy2 : y ≤ 9999) (hm1 : 1 ≤ m) (hm2 : m ≤ 12) (hd1 : 1 ≤ d)
    (hd2 : d ≤ daysInMonth y m) :
    normalize_timestamp (some (slashShape y pm m pdd d none)) =
      some (canonChars y m d 0 0 0) := by
  have hm99 : m ≤ 99 := by omega
  have hd99 : d ≤ 99 := by have := daysInMonth_le_31 y m; omega
  have hshape : slashShape y pm m pdd d none =
      pad4 y ++ '/' :: (renderNum pm m ++ '/' :: renderNum pdd d) := by
    simp [slashShape]
  have hnosp : ' ' ∉ pad4 y ++ '/' :: (renderNum pm m ++ '/' :: renderNum pdd d) :=
    not_mem_append_of (not_mem_digits (pad4_all_digit y) (by decide))
      (not_mem_cons_of (by decide)
        (not_mem_append_of (not_mem_digits (renderNum_all_digit pm m) (by decide))
          (not_mem_cons_of (by decide)
            (not_mem_digits (renderNum_all_digit pdd d) (by decide)))))
  have hne0 : slashShape y pm m pdd d none ≠ [] := by
    rw [hshape]
    simp
  have hhead : ∀ c, (slashShape y pm m pdd d none).head? = some c →
      isSpaceChar c = false := by
    intro c hc
    rw [hshape] at hc
    simp only [pad4, List.cons_append, List.head?_cons, Option.some.injEq] at hc
    rw [← hc]
    exact isSpaceChar_false_of_digit (digitChar_isDigit _)
  have hlastd : ∀ c, (slashShape y pm m pdd d none).getLast? = some c →
      isSpaceChar c = false := by
    intro c hc
    rw [hshape, List.getLast?_append_of_ne_nil _ (by simp),
      getLast?_cons_of_ne_nil _ (by simp [renderNum_ne_nil pdd d]),
      List.getLast?_append_of_ne_nil _ (by simp [renderNum_ne_nil pdd d]),
      getLast?_cons_of_ne_nil _ (renderNum_ne_nil pdd d)] at hc
    exact isSpaceChar_false_of_digit
      (renderNum_all_digit pdd d c (mem_of_getLast?_eq hc))
  have hstrip : pyStrip (slashShape y pm m pdd d none) = slashShape y pm m pdd d none :=
    pyStrip_eq_self hhead hlastd
  have hslash : '/' ∈ slashShape y pm m pdd d none := by
    rw [hshape]
    simp
  have hsplit1 : pySplit ' ' (slashShape y pm m pdd d none) =
      [pad4 y ++ '/' :: (renderNum pm m ++ '/' :: renderNum pdd d)] := by
    rw [hshape, pySplit_no_sep hnosp]
  have hsplit2 : pySplit '/' (pad4 y ++ '/' :: (renderNum pm m ++ '/' :: renderNum pdd d)) =
      [pad4 y, renderNum pm m, renderNum pdd d] := by
    rw [pySplit_append_sep _ (not_mem_digits (pad4_all_digit y) (by decide)),
      pySplit_append_sep _ (not_mem_digits (renderNum_all_digit pm m) (by decide)),
      pySplit_no_sep (not_mem_digits (renderNum_all_digit pdd d) (by decide))]
  have hsplit3 : pySplit ':' ("00:00".toList : Chars) = [pad2 0, pad2 0] := by decide
  have hvalid : strptimeValid (canonChars y m d 0 0 0) = true := by
    unfold strptimeValid
    rw [strptime_canon y m d 0 0 0 hy1 hy2 hm1 hm2 hd1 hd2 (by omega) (by omega) (by omega)]
    rfl
  simp only [normalize_timestamp]
  rw [if_neg hne0, hstrip, if_pos hslash, hsplit1]
  simp only [List.headD_cons, List.length_cons, List.length_nil, List.getD_cons_succ,
    List.getD_cons_zero, gt_iff_lt]
  rw [hsplit2]
  rw [if_neg (by omega : ¬ (1 : Nat) < 0 + 1)]
  rw [hsplit3]
  simp only [List.headD_cons, List.length_cons, List.length_nil, List.getD_cons_succ,
    List.getD_cons_zero]
  rw [if_pos (by omega : (1 : Nat) < 0 + 1 + 1), if_neg (by omega : ¬ (2 : Nat) < 0 + 1 + 1)]
  rw [zfill2_renderNum hm99 pm, zfill2_renderNum hd99 pdd, zeroPad2]
  rw [show zfill2 (pad2 0) = pad2 0 from rfl]
  rw [show pad4 y ++ '-' :: (pad2 m ++ '-' :: (pad2 d ++ ' ' :: (pad2 0 ++ ':' ::
    (pad2 0 ++ ':' :: pad2 0)))) = canonChars y m d 0 0 0 from rfl]
  rw [hvalid]
  simp

theorem pad2_ne_nil (v : Nat) : pad2 v ≠ [] := by simp [pad2]

theorem normalize_dash_sec (y m d h mi s : Nat)
    (hy1 : 1 ≤ y) (hy2 : y ≤ 9999) (hm1 : 1 ≤ m) (hm2 : m ≤ 12) (hd1 : 1 ≤ d)
    (hd2 : d ≤ daysInMonth y m) (hh : h ≤ 23) (hmi : mi ≤ 59) (hs : s ≤ 59) :
    normalize_timestamp (some (canonChars y m d h mi s)) =
      some (canonChars y m d h mi s) := by
  have hshape : canonChars y m d h mi s =
      (pad4 y ++ '-' :: (pad2 m ++ '-' :: pad2 d)) ++
        ' ' :: (pad2 h ++ ':' :: (pad2 mi ++ ':' :: pad2 s)) := by
    simp [canonChars, List.append_assoc, List.cons_append]
  have hA : ' ' ∉ pad4 y ++ '-' :: (pad2 m ++ '-' :: pad2 d) :=
    not_mem_append_of (not_mem_digits (pad4_all_digit y) (by decide))
      (not_mem_cons_of (by decide)
        (not_mem_append_of (not_mem_digits (pad2_all_digit m) (by decide))
          (not_mem_cons_of (by decide)
            (not_mem_digits (pad2_all_digit d) (by decide)))))
  have hB : ' ' ∉ pad2 h ++ ':' :: (pad2 mi ++ ':' :: pad2 s) :=
    not_mem_append_of (not_mem_digits (pad2_all_digit h) (by decide))
      (not_mem_cons_of (by decide)
        (not_mem_append_of (not_mem_digits (pad2_all_digit mi) (by decide))
          (not_mem_cons_of (by decide)
            (not_mem_digits (pad2_all_digit s) (by decide)))))
  have hnoslash : '/' ∉ canonChars y m d h mi s :=
    not_mem_append_of (not_mem_digits (pad4_all_digit y) (by decide))
      (not_mem_cons_of (by decide)
        (not_mem_append_of (not_mem_digits (pad2_all_digit m) (by decide))
          (not_mem_cons_of (by decide)
            (not_mem_append_of (not_mem_digits (pad2_all_digit d) (by decide))
              (not_mem_cons_of (by decide)
                (not_mem_append_of (not_mem_digits (pad2_all_digit h) (by decide))
                  (not_mem_cons_of (by decide)
                    (not_mem_append_of (not_mem_digits (pad2_all_digit mi) (by decide))
                      (not_mem_cons_of (by decide)
                        (not_mem_digits (pad2_all_digit s) (by decide)))))))))))
  have hne0 : canonChars y m d h mi s ≠ [] := by
    rw [hshape]
    simp
  have hhead : ∀ c, (canonChars y m d h mi s).head? = some c → isSpaceChar c = false := by
    intro c hc
    rw [hshape] at hc
    simp only [pad4, List.cons_append, List.head?_cons, Option.some.injEq] at hc
    rw [← hc]
    exact isSpaceChar_false_of_digit (digitChar_isDigit _)
  have hlastd : ∀ c, (canonChars y m d h mi s).getLast? = some c →
      isSpaceChar c = false := by
    intro c hc
    rw [hshape, List.getLast?_append_of_ne_nil _ (by simp),
      getLast?_cons_of_ne_nil _ (by simp),
      List.getLast?_append_of_ne_nil _ (by simp),
      getLast?_cons_of_ne_nil _ (by simp [pad2_ne_nil s]),
      List.getLast?_append_of_ne_nil _ (by simp [pad2_ne_nil s]),
      getLast?_cons_of_ne_nil _ (pad2_ne_nil s)] at hc
    exact isSpaceChar_false_of_digit (pad2_all_digit s c (mem_of_getLast?_eq hc))
  have hstrip : pyStrip (canonChars y m d h mi s) = canonChars y m d h mi s :=
    pyStrip_eq_self hhead hlastd
  have hdash : '-' ∈ canonChars y m d h mi s := by
    rw [hshape]
    simp
  have hsplit1 : pySplit ' ' (canonChars y m d h mi s) =
      [pad4 y ++ '-' :: (pad2 m ++ '-' :: pad2 d),
        pad2 h ++ ':' :: (pad2 mi ++ ':' :: pad2 s)] := by
    rw [hshape, pySplit_append_sep _ hA, pySplit_no_sep hB]
  have htsplit : pySplit ':' (pad2 h ++ ':' :: (pad2 mi ++ ':' :: pad2 s)) =
      [pad2 h, pad2 mi, pad2 s] := by
    rw [pySplit_append_sep _ (not_mem_digits (pad2_all_digit h) (by decide)),
      pySplit_append_sep _ (not_mem_digits (pad2_all_digit mi) (by decide)),
      pySplit_no_sep (not_mem_digits (pad2_all_digit s) (by decide))]
  have hvalid : strptimeValid (canonChars y m d h mi s) = true := by
    unfold strptimeValid
    rw [strptime_canon y m d h mi s hy1 hy2 hm1 hm2 hd1 hd2 hh hmi hs]
    rfl
  simp only [normalize_timestamp]
  rw [if_neg hne0, hstrip, if_neg hnoslash, if_pos hdash, hsplit1]
  simp only [List.length_cons, List.length_nil, List.headD_cons, List.getD_cons_succ,
    List.getD_cons_zero]
  rw [htsplit]
  simp only [List.length_cons, List.length_nil]
  simp only [if_true]
  rw [if_neg (by omega : ¬ (0 : Nat) + 1 + 1 + 1 = 2)]
  rw [hvalid]
  simp

theorem normalize_dash_nosec (y m d h mi : Nat)
    (hy1 : 1 ≤ y) (hy2 : y ≤ 9999) (hm1 : 1 ≤ m) (hm2 : m ≤ 12) (hd1 : 1 ≤ d)
    (hd2 : d ≤ daysInMonth y m) (hh : h ≤ 23) (hmi : mi ≤ 59) :
    normalize_timestamp (some (dashShape y m d h mi none)) =
      some (canonChars y m d h mi 0) := by
  have hshape : dashShape y m d h mi none =
      (pad4 y ++ '-' :: (pad2 m ++ '-' :: pad2 d)) ++
        ' ' :: (pad2 h ++ ':' :: pad2 mi) := by
    simp [dashShape, List.append_assoc, List.cons_append]
  have hA : ' ' ∉ pad4 y ++ '-' :: (pad2 m ++ '-' :: pad2 d) :=
    not_mem_append_of (not_mem_digits (pad4_all_digit y) (by decide))
      (not_mem_cons_of (by decide)
        (not_mem_append_of (not_mem_digits (pad2_all_digit m) (by decide))
          (not_mem_cons_of (by decide)
            (not_mem_digits (pad2_all_digit d) (by decide)))))
  have hB : ' ' ∉ pad2 h ++ ':' :: pad2 mi :=
    not_mem_append_of (not_mem_digits (pad2_all_digit h) (by decide))
      (not_mem_cons_of (by decide)
        (not_mem_digits (pad2_all_digit mi) (by decide)))
  have hnoslash : '/' ∉ dashShape y m d h mi none := by
    rw [hshape]
    exact not_mem_append_of
      (not_mem_append_of (not_mem_digits (pad4_all_digit y) (by decide))
        (not_mem_cons_of (by decide)
          (not_mem_append_of (not_mem_digits (pad2_all_digit m) (by decide))
            (not_mem_cons_of (by decide)
              (not_mem_digits (pad2_all_digit d) (by decide))))))
      (not_mem_cons_of (by decide)
        (not_mem_append_of (not_mem_digits (pad2_all_digit h) (by decide))
          (not_mem_cons_of (by decide)
            (not_mem_digits (pad2_all_digit mi) (by decide)))))
  have hne0 : dashShape y m d h mi none ≠ [] := by
    rw [hshape]
    simp
  have hhead : ∀ c, (dashShape y m d h mi none).head? = some c →
      isSpaceChar c = false := by
    intro c hc
    rw [hshape] at hc
    simp only [pad4, List.cons_append, List.head?_cons, Option.some.injEq] at hc
    rw [← hc]
    exact isSpaceChar_false_of_digit (digitChar_isDigit _)
  have hlastd : ∀ c, (dashShape y m d h mi none).getLast? = some c →
      isSpaceChar c = false := by
    intro c hc
    rw [hshape, List.getLast?_append_of_ne_nil _ (by simp),
      getLast?_cons_of_ne_nil _ (by simp [pad2_ne_nil mi]),
      List.getLast?_append_of_ne_nil _ (by simp [pad2_ne_nil mi]),
      getLast?_cons_of_ne_nil _ (pad2_ne_nil mi)] at hc
    exact isSpaceChar_false_of_digit (pad2_all_digit mi c (mem_of_getLast?_eq hc))
  have hstrip : pyStrip (dashShape y m d h mi none) = dashShape y m d h mi none :=
    pyStrip_eq_self hhead hlastd
  have hdash : '-' ∈ dashShape y m d h mi none := by
    rw [hshape]
    simp
  have hsplit1 : pySplit ' ' (dashShape y m d h mi none) =
      [pad4 y ++ '-' :: (pad2 m ++ '-' :: pad2 d), pad2 h ++ ':' :: pad2 mi] := by
    rw [hshape, pySplit_append_sep _ hA, pySplit_no_sep hB]
  have htsplit : pySplit ':' (pad2 h ++ ':' :: pad2 mi) = [pad2 h, pad2 mi] := by
    rw [pySplit_append_sep _ (not_mem_digits (pad2_all_digit h) (by decide)),
      pySplit_no_sep (not_mem_digits (pad2_all_digit mi) (by decide))]
  have hvalid : strptimeValid (canonChars y m d h mi 0) = true := by
    unfold strptimeValid
    rw [strptime_canon y m d h mi 0 hy1 hy2 hm1 hm2 hd1 hd2 hh hmi (by omega)]
    rfl
  simp only [normalize_timestamp]
  rw [if_neg hne0, hstrip, if_neg hnoslash, if_pos hdash, hsplit1]
  simp only [List.length_cons, List.length_nil, List.headD_cons, List.getD_cons_succ,
    List.getD_cons_zero]
  rw [htsplit]
  simp only [List.length_cons, List.length_nil, if_true]
  rw [zeroPad2]
  rw [show (pad4 y ++ '-' :: (pad2 m ++ '-' :: pad2 d)) ++
      ' ' :: ((pad2 h ++ ':' :: pad2 mi) ++ ':' :: pad2 0) = canonChars y m d h mi 0 from by
    simp [canonChars, List.append_assoc, List.cons_append]]
  rw [hvalid]
  simp

/-- C5: every valid input of the two accepted shapes — slash-delimited
`Y/M/D H:M[:S]` with optionally non-zero-padded fields (time-of-day
defaulting to `00:00:00` when missing, seconds to `00`), or dash-delimited
zero-padded `Y-M-D H:M[:S]` — normalizes to the canonical dash-delimited
zero-padded second-precision string; in particular `2025/11/1 17:18`
becomes `2025-11-01 17:18:00` and `2025-11-01 20:54:02` is returned
unchanged. -/
theorem normalize_timestamp_canonicalizes (y m d h mi s : Nat) (pm pdd ph pmi ps : Bool)
    (hy1 : 1 ≤ y) (hy2 : y ≤ 9999) (hm1 : 1 ≤ m) (hm2 : m ≤ 12) (hd1 : 1 ≤ d)
    (hd2 : d ≤ daysInMonth y m) (hh : h ≤ 23) (hmi : mi ≤ 59) (hs : s ≤ 59) :
    (normalize_timestamp
        (some (slashShape y pm m pdd d (some (ph, h, pmi, mi, some (ps, s))))) =
      some (canonChars y m d h mi s)) ∧
    (normalize_timestamp (some (slashShape y pm m pdd d (some (ph, h, pmi, mi, none)))) =
      some (canonChars y m d h mi 0)) ∧
    (normalize_timestamp (some (slashShape y pm m pdd d none)) =
      some (canonChars y m d 0 0 0)) ∧
    (normalize_timestamp (some (dashShape y m d h mi (some s))) =
      some (dashShape y m d h mi (some s))) ∧
    (normalize_timestamp (some (dashShape y m d h mi none)) =
      some (canonChars y m d h mi 0)) ∧
    normalize_timestamp (some "2025/11/1 17:18".toList) =
      some "2025-11-01 17:18:00".toList ∧
    normalize_timestamp (some "2025-11-01 20:54:02".toList) =
      some "2025-11-01 20:54:02".toList := by
  refine ⟨normalize_slash_time_sec y m d h mi s pm pdd ph pmi ps hy1 hy2 hm1 hm2 hd1 hd2
    hh hmi hs,
    normalize_slash_time_nosec y m d h mi pm pdd ph pmi hy1 hy2 hm1 hm2 hd1 hd2 hh hmi,
    normalize_slash_notime y m d pm pdd hy1 hy2 hm1 hm2 hd1 hd2, ?_,
    normalize_dash_nosec y m d h mi hy1 hy2 hm1 hm2 hd1 hd2 hh hmi, by decide, by decide⟩
  rw [show dashShape y m d h mi (some s) = canonChars y m d h mi s from rfl]
  exact normalize_dash_sec y m d h mi s hy1 hy2 hm1 hm2 hd1 hd2 hh hmi hs

theorem normalize_timestamp_canonicalizes_witness :
    (normalize_timestamp
        (some (slashShape 2025 false 11 false 1 (some (false, 17, false, 18, some (false, 2))))) =
      some (canonChars 2025 11 1 17 18 2)) ∧
    (normalize_timestamp
        (some (slashShape 2025 false 11 false 1 (some (false, 17, false, 18, none)))) =
      some (canonChars 2025 11 1 17 18 0)) ∧
    (normalize_timestamp (some (slashShape 2025 false 11 false 1 none)) =
      some (canonChars 2025 11 1 0 0 0)) ∧
    (normalize_timestamp (some (dashShape 2025 11 1 17 18 (some 2))) =
      some (dashShape 2025 11 1 17 18 (some 2))) ∧
    (normalize_timestamp (some (dashShape 2025 11 1 17 18 none)) =
      some (canonChars 2025 11 1 17 18 0)) ∧
    normalize_timestamp (some "2025/11/1 17:18".toList) =
      some "2025-11-01 17:18:00".toList ∧
    normalize_timestamp (some "2025-11-01 20:54:02".toList) =
      some "2025-11-01 20:54:02".toList :=
  normalize_timestamp_canonicalizes 2025 11 1 17 18 2 false false false false false
    (by decide) (by decide) (by decide) (by decide) (by decide) (by decide) (by decide)
    (by decide) (by decide)

/-- C8: the normalizer is idempotent on valid inputs of both accepted
shapes: re-normalizing its output reproduces it. -/
theorem normalize_timestamp_idempotent (y m d h mi s : Nat) (pm pdd ph pmi ps : Bool)
    (hy1 : 1 ≤ y) (hy2 : y ≤ 9999) (hm1 : 1 ≤ m) (hm2 : m ≤ 12) (hd1 : 1 ≤ d)
    (hd2 : d ≤ daysInMonth y m) (hh : h ≤ 23) (hmi : mi ≤ 59) (hs : s ≤ 59) :
    (normalize_timestamp (normalize_timestamp
        (some (slashShape y pm m pdd d (some (ph, h, pmi, mi, some (ps, s)))))) =
      normalize_timestamp
        (some (slashShape y pm m pdd d (some (ph, h, pmi, mi, some (ps, s)))))) ∧
    (normalize_timestamp (normalize_timestamp
        (some (slashShape y pm m pdd d (some (ph, h, pmi, mi, none))))) =
      normalize_timestamp (some (slashShape y pm m pdd d (some (ph, h, pmi, mi, none))))) ∧
    (normalize_timestamp (normalize_timestamp (some (slashShape y pm m pdd d none))) =
      normalize_timestamp (some (slashShape y pm m pdd d none))) ∧
    (normalize_timestamp (normalize_timestamp (some (dashShape y m d h mi (some s)))) =
      normalize_timestamp (some (dashShape y m d h mi (some s)))) ∧
    (normalize_timestamp (normalize_timestamp (some (dashShape y m d h mi none))) =
      normalize_timestamp (some (dashShape y m d h mi none))) := by
  have hcanon : ∀ h' mi' s', h' ≤ 23 → mi' ≤ 59 → s' ≤ 59 →
      normalize_timestamp (some (canonChars y m d h' mi' s')) =
        some (canonChars y m d h' mi' s') := fun h' mi' s' hh' hmi' hs' =>
    normalize_dash_sec y m d h' mi' s' hy1 hy2 hm1 hm2 hd1 hd2 hh' hmi' hs'
  refine ⟨?_, ?_, ?_, ?_, ?_⟩
  · rw [normalize_slash_time_sec y m d h mi s pm pdd ph pmi ps hy1 hy2 hm1 hm2 hd1 hd2
      hh hmi hs]
    exact hcanon h mi s hh hmi hs
  · rw [normalize_slash_time_nosec y m d h mi pm pdd ph pmi hy1 hy2 hm1 hm2 hd1 hd2 hh hmi]
    exact hcanon h mi 0 hh hmi (by omega)
  · rw [normalize_slash_notime y m d pm pdd hy1 hy2 hm1 hm2 hd1 hd2]
    exact hcanon 0 0 0 (by omega) (by omega) (by omega)
  · rw [show dashShape y m d h mi (some s) = canonChars y m d h mi s from rfl,
      hcanon h mi s hh hmi hs]
    exact hcanon h mi s hh hmi hs
  · rw [normalize_dash_nosec y m d h mi hy1 hy2 hm1 hm2 hd1 hd2 hh hmi]
    exact hcanon h mi 0 hh hmi (by omega)

theorem normalize_timestamp_idempotent_witness :
    (normalize_timestamp (normalize_timestamp
        (some (slashShape 2025 false 11 false 1 (some (false, 17, false, 18, some (false, 2)))))) =
      normalize_timestamp
        (some (slashShape 2025 false 11 false 1 (some (false, 17, false, 18, some (false, 2)))))) ∧
    (normalize_timestamp (normalize_timestamp
        (some (slashShape 2025 false 11 false 1 (some (false, 17, false, 18, none))))) =
      normalize_timestamp (some (slashShape 2025 false 11 false 1 (some (false, 17, false, 18, none))))) ∧
    (normalize_timestamp (normalize_timestamp (some (slashShape 2025 false 11 false 1 none))) =
      normalize_timestamp (some (slashShape 2025 false 11 false 1 none))) ∧
    (normalize_timestamp (normalize_timestamp (some (dashShape 2025 11 1 17 18 (some 2)))) =
      normalize_timestamp (some (dashShape 2025 11 1 17 18 (some 2)))) ∧
    (normalize_timestamp (normalize_timestamp (some (dashShape 2025 11 1 17 18 none))) =
      normalize_timestamp (some (dashShape 2025 11 1 17 18 none))) :=
  normalize_timestamp_idempotent 2025 11 1 17 18 2 false false false false false
    (by decide) (by decide) (by decide) (by decide) (by decide) (by decide) (by decide)
    (by decide) (by decide)

theorem strptime_of_if_eq {X c : Chars}
    (h : (if strptimeValid X then some X else none) = some c) :
    strptimeValid c = true := by
  cases hv : strptimeValid X with
  | false =>
    rw [if_neg (by simp [hv])] at h
    exact absurd h (by simp)
  | true =>
    rw [if_pos (by simp [hv])] at h
    rw [Option.some.injEq] at h
    rw [← h]
    exact hv

/-- C9: the normalizer is a total function returning either a normalized
string or the failure value: a missing (`NaN`) input and the empty string
yield the failure value, and whenever it does return a string, that string
passes the strptime validation (it is a well-formed normalized timestamp);
no exception can escape, as the embedding is total. -/
theorem normalize_timestamp_total_failure_modes :
    normalize_timestamp none = none ∧
    normalize_timestamp (some ("".toList)) = none ∧
    ∀ s c, normalize_timestamp (some s) = some c → strptimeValid c = true := by
  refine ⟨rfl, by decide, ?_⟩
  intro s c h
  simp only [normalize_timestamp] at h
  by_cases hs0 : s = []
  · rw [if_pos hs0] at h
    exact absurd h (by simp)
  · rw [if_neg hs0] at h
    by_cases hsl : '/' ∈ pyStrip s
    · rw [if_pos hsl] at h
      rcases hm : pySplit '/' ((pySplit ' ' (pyStrip s)).headD []) with
        _ | ⟨y1, _ | ⟨m1, _ | ⟨d1, rest⟩⟩⟩
      · rw [hm] at h
        simp at h
      · rw [hm] at h
        simp at h
      · rw [hm] at h
        simp at h
      · rw [hm] at h
        simp only at h
        exact strptime_of_if_eq h
    · rw [if_neg hsl] at h
      by_cases hds : '-' ∈ pyStrip s
      · rw [if_pos hds] at h
        exact strptime_of_if_eq h
      · rw [if_neg hds] at h
        exact absurd h (by simp)

theorem normalize_timestamp_total_failure_modes_witness :
    strptimeValid ("2025-11-01 20:54:02".toList) = true :=
  normalize_timestamp_total_failure_modes.2.2 "2025-11-01 20:54:02".toList
    "2025-11-01 20:54:02".toList (by decide)

/-! ## Proofs: the validator and the main merge flow -/

theorem mapM_rowParseTs_spec : ∀ (df df' : List Row), df.mapM rowParseTs = some df' →
    df'.map Row.mod_id = df.map Row.mod_id ∧
    df'.map Row.subscribers = df.map Row.subscribers ∧
    ((∀ r ∈ df, pd_to_datetime r.timestamp = some r.timestamp) → df' = df)
  | [], df', h => by
    simp only [List.mapM_nil, Option.pure_def, Option.some.injEq] at h
    subst h
    exact ⟨rfl, rfl, fun _ => rfl⟩
  | x :: xs, df', h => by
    rw [List.mapM_cons] at h
    cases hx : rowParseTs x with
    | none =>
      rw [hx] at h
      simp at h
    | some x' =>
      rw [hx] at h
      cases hxs : xs.mapM rowParseTs with
      | none =>
        rw [hxs] at h
        simp at h
      | some ys =>
        rw [hxs] at h
        simp only [Option.bind_eq_bind, Option.some_bind, Option.pure_def,
          Option.some.injEq] at h
        subst h
        obtain ⟨h1, h2, h3⟩ := mapM_rowParseTs_spec xs ys hxs
        have hx' : x'.mod_id = x.mod_id ∧ x'.subscribers = x.subscribers := by
          unfold rowParseTs at hx
          cases hpd : pd_to_datetime x.timestamp with
          | none =>
            rw [hpd] at hx
            simp at hx
          | some t =>
            rw [hpd] at hx
            have hx2 : ({ x with timestamp := t } : Row) = x' := Option.some.inj hx
            rw [← hx2]
            exact ⟨rfl, rfl⟩
        refine ⟨by simp [hx'.1, h1], by simp [hx'.2, h2], ?_⟩
        intro hid
        have hxid : pd_to_datetime x.timestamp = some x.timestamp :=
          hid x (List.mem_cons_self x xs)
        have hxx : x' = x := by
          unfold rowParseTs at hx
          rw [hxid] at hx
          have hx2 : ({ x with timestamp := x.timestamp } : Row) = x' := Option.some.inj hx
          have heta : ({ x with timestamp := x.timestamp } : Row) = x := by
            cases x
            rfl
          rw [heta] at hx2
          exact hx2.symm
        rw [hxx, h3 (fun r hr => hid r (List.mem_cons_of_mem x hr))]

/-- C6 counterexample: a candidate Table whose timestamp is parseable but not
canonically padded is mutated in place by the validator — the timestamp
column is replaced by its parsed (canonicalized) value. -/
theorem validate_data_mutates_cex :
    (validate_data [⟨1, "2025-11-01 5:00:00".toList, 10⟩]).2 ≠
      [⟨1, "2025-11-01 5:00:00".toList, 10⟩] ∧
    (validate_data [⟨1, "2025-11-01 5:00:00".toList, 10⟩]).2 =
      [⟨1, "2025-11-01 05:00:00".toList, 10⟩] := by
  decide

/-- C6 (amended): the validator returns a pass/fail result and leaves the
Table's `mod_id` and `subscribers` columns, its row count and its row order
unchanged; but it rewrites the `timestamp` column in place to the parsed
(canonical) form when the whole column parses — in particular a Table whose
timestamps are already in canonical parsed form is returned unchanged. -/
theorem validate_data_frame (df : List Row) :
    ((validate_data df).2.map Row.mod_id = df.map Row.mod_id) ∧
    ((validate_data df).2.map Row.subscribers = df.map Row.subscribers) ∧
    ((∀ r ∈ df, pd_to_datetime r.timestamp = some r.timestamp) →
      (validate_data df).2 = df) := by
  by_cases hdf : df.isEmpty
  · have hval : validate_data df = (false, df) := by
      unfold validate_data
      rw [if_pos hdf]
    rw [hval]
    exact ⟨rfl, rfl, fun _ => rfl⟩
  · cases hmp : df.mapM rowParseTs with
    | none =>
      have hval : validate_data df = (false, df) := by
        unfold validate_data
        rw [if_neg hdf, hmp]
      rw [hval]
      exact ⟨rfl, rfl, fun _ => rfl⟩
    | some df' =>
      obtain ⟨h1, h2, h3⟩ := mapM_rowParseTs_spec df df' hmp
      have hval : validate_data df =
          if (df'.map rowKey).Nodup then (true, df') else (false, df') := by
        unfold validate_data
        rw [if_neg hdf, hmp]
      rw [hval]
      by_cases hnd : (df'.map rowKey).Nodup
      · rw [if_pos hnd]
        exact ⟨h1, h2, h3⟩
      · rw [if_neg hnd]
        exact ⟨h1, h2, h3⟩

theorem validate_data_frame_witness :
    (∀ r ∈ ([⟨1, "2025-11-01 05:00:00".toList, 10⟩] : List Row),
      pd_to_datetime r.timestamp = some r.timestamp) ∧
    (validate_data [⟨1, "2025-11-01 05:00:00".toList, 10⟩]).2 =
      [⟨1, "2025-11-01 05:00:00".toList, 10⟩] :=
  ⟨by decide, (validate_data_frame [⟨1, "2025-11-01 05:00:00".toList, 10⟩]).2.2 (by decide)⟩

/-- C7: whenever post-merge validation fails on the merge result, `main`
leaves the persisted Table untouched and reports the run as failed (and, the
embedding being a total function, it does not crash). -/
theorem main_run_keeps_persisted_on_validation_failure
    (persisted : Option (List Row)) (old_rows : List Row)
    (hv : (validate_data (merge_with_existing persisted (clean_data old_rows))).1 = false) :
    main_run persisted old_rows = (persisted, false) := by
  simp only [main_run]
  by_cases ho : old_rows.isEmpty
  · rw [if_pos ho]
  · rw [if_neg ho, hv]
    simp

theorem main_run_keeps_persisted_on_validation_failure_witness :
    (validate_data (merge_with_existing (some [⟨1, "garbage".toList, 5⟩])
        (clean_data [⟨1, "2025-11-01 00:00:00".toList, 3⟩]))).1 = false ∧
    main_run (some [⟨1, "garbage".toList, 5⟩]) [⟨1, "2025-11-01 00:00:00".toList, 3⟩] =
      (some [⟨1, "garbage".toList, 5⟩], false) :=
  ⟨by decide, main_run_keeps_persisted_on_validation_failure _ _ (by decide)⟩
